import Mathlib

/-!
Verification development for the divtracker portfolio dashboard.

The TypeScript source is shallowly embedded here:
* JS strings are modelled as `Str := List Char`.
* JS numbers are modelled as exact rationals `ℚ`; in parsing code, where
  `parseFloat` can produce `NaN`, numbers are modelled as `JSNum := Option ℚ`
  with `none` standing for `NaN` (comparisons with `NaN` are `false`, and
  arithmetic propagates it, as in JS).
* `new Date(s)` values are modelled structurally as `DateYMD` (year, 0-based
  month as in `Date.getMonth`, day); comparison of `getTime()` values is the
  lexicographic order on (year, month, day).
* `Array.prototype.sort` is a stable sort by the supplied comparator
  (ES2019+); a stable sort's output is uniquely determined by the comparator,
  so it is modelled by `List.insertionSort` with the comparator's non-strict
  relation.
-/

/-- JS strings, modelled as lists of characters. -/
abbrev Str := List Char

/-- Characters treated as whitespace by `trim` (the JS set is larger, but
only ASCII whitespace occurs in the modelled inputs). -/
def isWSChar (c : Char) : Bool :=
  c = ' ' || c = '\t' || c = '\r' || c = '\n'

/-- `String.prototype.trim`. -/
def trimStr (s : Str) : Str :=
  ((s.dropWhile isWSChar).reverse.dropWhile isWSChar).reverse

/-- `String.prototype.toLowerCase` (ASCII). -/
def toLowerStr (s : Str) : Str := s.map Char.toLower

/-- `String.prototype.toUpperCase` (ASCII). -/
def toUpperStr (s : Str) : Str := s.map Char.toUpper

/-- Does `hay` start with `needle`? -/
def strStartsWith : Str → Str → Bool
  | _, [] => true
  | [], _ :: _ => false
  | h :: hs, n :: ns => h = n && strStartsWith hs ns

/-- `String.prototype.includes`: substring containment. -/
def strIncludes : Str → Str → Bool
  | [], needle => needle.isEmpty
  | h :: t, needle => strStartsWith (h :: t) needle || strIncludes t needle

/-- `String.prototype.split` with a single-character separator. -/
def splitOnChar (c : Char) : Str → List Str
  | [] => [[]]
  | x :: xs =>
    let r := splitOnChar c xs
    if x = c then [] :: r
    else
      match r with
      | [] => [[x]]
      | y :: ys => (x :: y) :: ys

/-- Drop one trailing carriage return, if present. -/
def dropTrailingCR (s : Str) : Str :=
  match s.reverse with
  | '\r' :: rest => rest.reverse
  | _ => s

/-- `text.split(/\r?\n/)`: split on newlines, swallowing a preceding CR. -/
def splitLines (s : Str) : List Str :=
  (splitOnChar '\n' s).map dropTrailingCR

/-- Decimal digits of a natural number, most significant first. -/
def natToStr (n : Nat) : Str := Nat.toDigits 10 n

/-- `String(n).padStart(2, '0')`. -/
def pad2 (s : Str) : Str :=
  if s.length < 2 then List.replicate (2 - s.length) '0' ++ s else s

/-- Lexicographic (UTF-16 code-unit) comparison of JS strings, as used by the
default `Array.prototype.sort` comparator. -/
def strLexLe : Str → Str → Bool
  | [], _ => true
  | _ :: _, [] => false
  | a :: as_, b :: bs =>
    if a.val < b.val then true
    else if b.val < a.val then false
    else strLexLe as_ bs

/-- JS numbers that may be `NaN` (modelled as `none`). -/
abbrev JSNum := Option ℚ

/-- JS addition: `NaN` propagates. -/
def jsAdd : JSNum → JSNum → JSNum
  | some a, some b => some (a + b)
  | _, _ => none

/-- JS subtraction: `NaN` propagates. -/
def jsSub : JSNum → JSNum → JSNum
  | some a, some b => some (a - b)
  | _, _ => none

/-- JS multiplication: `NaN` propagates. -/
def jsMul : JSNum → JSNum → JSNum
  | some a, some b => some (a * b)
  | _, _ => none

/-- JS division. Division by zero yields `Infinity`/`NaN` in JS; both are
collapsed to `none` here (every call site in the modelled code guards the
divisor to be positive). -/
def jsDiv : JSNum → JSNum → JSNum
  | some a, some b => if b = 0 then none else some (a / b)
  | _, _ => none

/-- JS `>` : any comparison with `NaN` is `false`. -/
def jsGt : JSNum → JSNum → Bool
  | some a, some b => a > b
  | _, _ => false

/-- JS `<=` : any comparison with `NaN` is `false`. -/
def jsLe : JSNum → JSNum → Bool
  | some a, some b => a ≤ b
  | _, _ => false

/-- JS truthiness of a number: `0` and `NaN` are falsy. -/
def jsTruthy : JSNum → Bool
  | some a => a ≠ 0
  | none => false

/-- `a || b` on JS numbers. -/
def jsOrElse (a b : JSNum) : JSNum := if jsTruthy a then a else b

/-- Value of a list of decimal digit characters. -/
def digitsVal (s : Str) : Nat :=
  s.foldl (fun n c => 10 * n + (c.toNat - '0'.toNat)) 0

/-- `parseFloat`: skip leading whitespace, optional sign, longest prefix of
`digits[.digits]`; `NaN` (`none`) if no digit is found. Exponent suffixes and
`Infinity` are not modelled (they do not occur in the modelled inputs). -/
def jsParseFloat (s : Str) : JSNum :=
  let s₁ := s.dropWhile isWSChar
  let (neg, s₂) : Bool × Str :=
    match s₁ with
    | '-' :: rest => (true, rest)
    | '+' :: rest => (false, rest)
    | _ => (false, s₁)
  let intDigits := s₂.takeWhile Char.isDigit
  let s₃ := s₂.dropWhile Char.isDigit
  let fracDigits :=
    match s₃ with
    | '.' :: rest => rest.takeWhile Char.isDigit
    | _ => []
  if intDigits.isEmpty && fracDigits.isEmpty then none
  else
    let v : ℚ := (digitsVal intDigits : ℚ) +
      (digitsVal fracDigits : ℚ) / (10 : ℚ) ^ fracDigits.length
    some (if neg then -v else v)

/-- Calendar dates as produced by `new Date(dateString)`: year,
0-based month (as returned by `getMonth()`), day of month. -/
structure DateYMD where
  year : Int
  month : Fin 12
  day : Nat
deriving DecidableEq, Repr

/-- Comparison of `getTime()` values: lexicographic on (year, month, day). -/
def dateLe (a b : DateYMD) : Prop :=
  a.year < b.year ∨ (a.year = b.year ∧
    (a.month < b.month ∨ (a.month = b.month ∧ a.day ≤ b.day)))

instance : DecidableRel dateLe := fun a b => by
  unfold dateLe; infer_instance

/-- Month difference as computed in the source:
`(y₂ − y₁) * 12 + (m₂ − m₁)`. -/
def monthsDiff (a b : DateYMD) : Int :=
  (b.year - a.year) * 12 + ((b.month : Int) - (a.month : Int))

/-- Full English month name, as produced by
`date.toLocaleString('default', { month: 'long' })`. -/
def monthName (m : Fin 12) : Str :=
  match m with
  | 0 => "January".data
  | 1 => "February".data
  | 2 => "March".data
  | 3 => "April".data
  | 4 => "May".data
  | 5 => "June".data
  | 6 => "July".data
  | 7 => "August".data
  | 8 => "September".data
  | 9 => "October".data
  | 10 => "November".data
  | 11 => "December".data

/-- Dividend payment cadence (`dividendFrequency` string union in the source). -/
inductive Freq where
  | monthly
  | quarterly
  | semiAnnual
  | annual
  | irregular
deriving DecidableEq, Repr

/-- A brokerage transaction (src/types: `Transaction`). Fields never read by
the modelled code (`fees`, `tax`, `currency`, `notes`, …) are omitted. -/
structure Transaction where
  id : Str
  date : DateYMD
  type : Str
  symbol : Str
  companyName : Str
  shares : ℚ
  price : ℚ
  amount : ℚ
deriving DecidableEq, Repr

/-- A realized dividend payment (src/types: `DividendPayment`). Fields never
read by the modelled code are omitted. -/
structure DividendPayment where
  id : Str
  symbol : Str
  date : DateYMD
  amount : ℚ
  shares : ℚ
deriving DecidableEq, Repr

/-- A derived holding (src/types: `Holding`), as built by
`calculateHoldingsFromTransactions` in src/utils/calculations.ts. -/
structure Holding where
  id : Str
  symbol : Str
  name : Str
  shares : ℚ
  costBasis : ℚ
  totalCost : ℚ
  currentPrice : ℚ
  currentValue : ℚ
  gain : ℚ
  gainPercent : ℚ
  dividendYield : ℚ
  annualIncome : ℚ
  lastUpdated : DateYMD
  assetClass : Str
  allocation : ℚ
  shareInPortfolio : ℚ
  costPerShare : ℚ
  dividendAmount : ℚ
  dividendFrequency : Freq
  dividendGrowth : ℚ
  sector : Str
  irr : ℚ
deriving DecidableEq, Repr

/-- `uuidv4()`: the generated identity is irrelevant to every claim, so it is
modelled as a constant. -/
def uuidv4 : Str := "uuid".data

/-- The fresh holding object created by `calculateHoldingsFromTransactions`
when a symbol is first seen (`name: companyName || symbol`). -/
def initHolding (symbol companyName : Str) (date : DateYMD) : Holding :=
  { id := uuidv4
    symbol := symbol
    name := if companyName = [] then symbol else companyName
    shares := 0
    costBasis := 0
    totalCost := 0
    currentPrice := 0
    currentValue := 0
    gain := 0
    gainPercent := 0
    dividendYield := 0
    annualIncome := 0
    lastUpdated := date
    assetClass := "Stocks".data
    allocation := 0
    shareInPortfolio := 0
    costPerShare := 0
    dividendAmount := 0
    dividendFrequency := .quarterly
    dividendGrowth := 0
    sector := "Other".data
    irr := 0 }

/-- The `switch (type.toUpperCase())` body of
`calculateHoldingsFromTransactions`, followed by the current-price and
last-updated updates. In the SELL case the source divides by
`holding.shares`; with zero held shares JS produces `NaN` whereas `ℚ`
division yields `0` — every theorem touching SELL therefore assumes
nonzero held shares. -/
def applyTxToHolding (holding : Transaction) (h : Holding) : Holding :=
  let t := holding
  let h₁ :=
    if toUpperStr t.type = "BUY".data then
      let totalCost := h.totalCost + t.amount
      let shares := h.shares + t.shares
      let costBasis := if shares > 0 then totalCost / shares else 0
      { h with totalCost, shares, costBasis, costPerShare := costBasis }
    else if toUpperStr t.type = "SELL".data then
      let totalCost := h.totalCost * (1 - t.shares / h.shares)
      let shares := h.shares - t.shares
      let costBasis := if shares > 0 then totalCost / shares else 0
      { h with totalCost, shares, costBasis, costPerShare := costBasis }
    else if toUpperStr t.type = "DIVIDEND".data then
      h
    else if toUpperStr t.type = "SPLIT".data then
      if t.price > 0 then
        let splitRatio := t.price
        let shares := h.shares * splitRatio
        let costBasis := h.costBasis / splitRatio
        { h with shares, costBasis, costPerShare := costBasis }
      else h
    else h
  let h₂ := if t.price > 0 then { h₁ with currentPrice := t.price } else h₁
  { h₂ with lastUpdated := t.date }

/-- Lookup in the insertion-ordered holdings map (`holdingsMap[symbol]`). -/
def alistGet (m : List (Str × Holding)) (k : Str) : Option Holding :=
  match m with
  | [] => none
  | (k', h) :: rest => if k' = k then some h else alistGet rest k

/-- Update in the insertion-ordered holdings map; a new key is appended, as a
JS object records keys in insertion order. -/
def alistPut (m : List (Str × Holding)) (k : Str) (h : Holding) :
    List (Str × Holding) :=
  match m with
  | [] => [(k, h)]
  | (k', h') :: rest =>
    if k' = k then (k', h) :: rest else (k', h') :: alistPut rest k h

/-- One iteration of the `sortedTransactions.forEach` loop. -/
def processTx (m : List (Str × Holding)) (t : Transaction) :
    List (Str × Holding) :=
  if t.symbol = [] then m
  else
    let h := (alistGet m t.symbol).getD (initHolding t.symbol t.companyName t.date)
    alistPut m t.symbol (applyTxToHolding t h)

/-- The post-replay step: compute `currentValue`, `gain`, `gainPercent`. -/
def finalizeHolding (h : Holding) : Holding :=
  let currentValue := h.shares * h.currentPrice
  let gain := currentValue - h.totalCost
  { h with currentValue, gain
           gainPercent := if h.totalCost > 0 then gain / h.totalCost * 100 else 0 }

/-- The allocation assignment at the end of
`calculateHoldingsFromTransactions`. -/
def setAllocation (totalValue : ℚ) (h : Holding) : Holding :=
  let allocation := if totalValue > 0 then h.currentValue / totalValue * 100 else 0
  { h with allocation, shareInPortfolio := allocation }

/-- src/utils/calculations.ts `calculateHoldingsFromTransactions`: sort by
date (stable), replay per symbol, drop non-positive positions, finalize,
assign allocations. -/
def calculateHoldingsFromTransactions (transactions : List Transaction) :
    List Holding :=
  if transactions = [] then []
  else
    let sortedTransactions :=
      transactions.insertionSort (fun a b => dateLe a.date b.date)
    let holdingsMap := sortedTransactions.foldl processTx []
    let holdings :=
      ((holdingsMap.map Prod.snd).filter (fun h => h.shares > 0)).map
        finalizeHolding
    let totalValue := holdings.foldl (fun sum h => sum + h.currentValue) 0
    holdings.map (setAllocation totalValue)

/-- Month gaps between consecutive dates (the `for (let i = 1; …)` interval
loop of `determineDividendFrequency`). -/
def pairGaps : List DateYMD → List Int
  | a :: b :: rest => monthsDiff a b :: pairGaps (b :: rest)
  | _ => []

/-- src/utils/transactionParser.ts `determineDividendFrequency`. -/
def determineDividendFrequency (dividends : List DividendPayment) (symbol : Str) :
    Freq :=
  let symbolDividends := dividends.filter (fun d => d.symbol = symbol)
  if symbolDividends.length ≤ 1 then .quarterly
  else
    let sortedDividends :=
      symbolDividends.insertionSort (fun a b => dateLe a.date b.date)
    let intervals := pairGaps (sortedDividends.map (fun d => d.date))
    if intervals = [] then .quarterly
    else
      let avgInterval : ℚ := ((intervals.sum : ℤ) : ℚ) / (intervals.length : ℚ)
      if avgInterval ≤ 3/2 then .monthly
      else if avgInterval ≤ 4 then .quarterly
      else if avgInterval ≤ 8 then .semiAnnual
      else .annual

/-- Generic first-occurrence dedup with a `Set` of already-seen keys
(the `seen.has(key)` filter pattern used by `removeDuplicateTransactions`,
`removeDuplicateDividends`, and `new Set(...)` on months). -/
def filterSeenAux {α κ : Type} [DecidableEq κ] (key : α → κ) (seen : List κ) :
    List α → List α
  | [] => []
  | x :: xs =>
    if key x ∈ seen then filterSeenAux key seen xs
    else x :: filterSeenAux key (key x :: seen) xs

/-- First-occurrence dedup by key, starting from an empty seen-set. -/
def filterSeen {α κ : Type} [DecidableEq κ] (key : α → κ) (l : List α) : List α :=
  filterSeenAux key [] l

/-- The transaction dedup key. The source interpolates the five fields into a
template string `date-symbol-type-price-shares`; it is modelled as the tuple
of the five fields. -/
def txDedupKey (t : Transaction) : DateYMD × Str × Str × ℚ × ℚ :=
  (t.date, t.symbol, t.type, t.price, t.shares)

/-- The dividend dedup key `date-symbol-amount`, modelled as a tuple. -/
def divDedupKey (d : DividendPayment) : DateYMD × Str × ℚ :=
  (d.date, d.symbol, d.amount)

/-- `removeDuplicateTransactions` (unnamed module, `part_015`). -/
def removeDuplicateTransactions (transactions : List Transaction) :
    List Transaction :=
  filterSeen txDedupKey transactions

/-- `removeDuplicateDividends` (unnamed module, `part_015`). -/
def removeDuplicateDividends (dividends : List DividendPayment) :
    List DividendPayment :=
  filterSeen divDedupKey dividends

/-- The stored portfolio state. -/
structure PortfolioData where
  holdings : List Holding
  dividends : List DividendPayment
  transactions : List Transaction
deriving DecidableEq

/-- The file type attached to a parsed import. -/
inductive FileType where
  | positions
  | transactions
deriving DecidableEq, Repr

/-- The data produced by parsing an imported file. -/
structure ParsedData where
  holdings : List Holding
  dividends : List DividendPayment
  transactions : List Transaction
  fileType : FileType
deriving DecidableEq

/-- `mergePortfolioData` (unnamed module, `part_015`): positions files replace
holdings and append dividends; transactions files union transactions and
dividends with dedup. -/
def mergePortfolioData (existingData : PortfolioData) (newData : ParsedData) :
    PortfolioData :=
  match newData.fileType with
  | .positions =>
    { holdings := newData.holdings
      dividends := existingData.dividends ++ newData.dividends
      transactions := existingData.transactions }
  | .transactions =>
    { holdings := existingData.holdings
      dividends :=
        removeDuplicateDividends (existingData.dividends ++ newData.dividends)
      transactions :=
        removeDuplicateTransactions
          (existingData.transactions ++ newData.transactions) }

/-- One holding's contribution to one projected month. -/
structure ProjEntry where
  symbol : Str
  name : Str
  amount : ℚ
deriving DecidableEq, Repr

/-- One of the 12 forward projection months. -/
structure MonthProjection where
  month : Str
  total : ℚ
  holdings : List ProjEntry
deriving DecidableEq, Repr

/-- The `YYYY-MM` month key (1-based month, zero-padded). -/
def monthKeyStr (year monthPlus1 : Nat) : Str :=
  natToStr year ++ "-".data ++ pad2 (natToStr monthPlus1)

/-- The empty projection slot for forward month `i`
(`currentMonth`/`currentYear` are `now.getMonth()`/`now.getFullYear()`,
passed as parameters). -/
def initProj (currentMonth currentYear i : Nat) : MonthProjection :=
  { month := monthKeyStr (currentYear + (currentMonth + i) / 12)
      ((currentMonth + i) % 12 + 1)
    total := 0
    holdings := [] }

/-- `projections[i].total += amount; projections[i].holdings.push(...)`. -/
def addToMonth (symbol name : Str) (amount : ℚ) (p : MonthProjection) :
    MonthProjection :=
  { p with total := p.total + amount
           holdings := p.holdings ++ [⟨symbol, name, amount⟩] }

/-- Apply `f i · ` to the element at each index, starting at index `s`
(the `for (let i = 0; i < 12; i++)` loops over `projections`). -/
def mapIdx {α : Type} (f : Nat → α → α) : Nat → List α → List α
  | _, [] => []
  | i, p :: ps => f i p :: mapIdx f (i + 1) ps

/-- Default `Array.prototype.sort()` order on numbers: lexicographic on their
decimal string forms (the source sorts month numbers with no comparator). -/
def jsDefaultNumLe (a b : Nat) : Prop :=
  strLexLe (natToStr a) (natToStr b) = true

instance : DecidableRel jsDefaultNumLe := fun a b => by
  unfold jsDefaultNumLe; infer_instance

/-- src/utils/calculations.ts `detectQuarterlyMonths`: the empirically
detected payment months for a symbol, or `[0,3,6,9]`, or `[]` with fewer
than 2 payments. Subtractions are on JS numbers, hence `Int`. -/
def detectQuarterlyMonths (symbol : Str)
    (dividendHistory : List DividendPayment) : List Nat :=
  let dividends := dividendHistory.filter (fun d => d.symbol = symbol)
  if dividends.length < 2 then []
  else
    let months := dividends.map (fun d => (d.date.month : Nat))
    let uniqueMonths := (filterSeen id months).insertionSort jsDefaultNumLe
    match uniqueMonths with
    | [a, b, c, d] =>
      if 2 ≤ (b : Int) - (a : Int) ∧ 2 ≤ (c : Int) - (b : Int) ∧
          2 ≤ (d : Int) - (c : Int) then
        [a, b, c, d]
      else [0, 3, 6, 9]
    | _ => [0, 3, 6, 9]

/-- The per-holding distribution step of `calculateDividendProjections`
(src/utils/calculations.ts, second copy, lines 470-614). -/
def distributeHolding (currentMonth : Nat)
    (dividendHistory : List DividendPayment)
    (projections : List MonthProjection) (holding : Holding) :
    List MonthProjection :=
  if holding.dividendAmount ≤ 0 ∨ holding.shares ≤ 0 then projections
  else
    let annualAmount := holding.annualIncome
    match holding.dividendFrequency with
    | .monthly =>
      mapIdx (fun _ p => addToMonth holding.symbol holding.name
        (annualAmount / 12) p) 0 projections
    | .quarterly =>
      let quarterMonths := detectQuarterlyMonths holding.symbol dividendHistory
      if quarterMonths.length = 4 then
        quarterMonths.foldl (fun ps payMonth =>
          mapIdx (fun i p =>
            if (currentMonth + i) % 12 = payMonth then
              addToMonth holding.symbol holding.name (annualAmount / 4) p
            else p) 0 ps) projections
      else
        mapIdx (fun i p =>
          if (currentMonth + i) % 12 % 3 = 0 then
            addToMonth holding.symbol holding.name (annualAmount / 4) p
          else p) 0 projections
    | .semiAnnual =>
      mapIdx (fun i p =>
        if (currentMonth + i) % 12 = 0 ∨ (currentMonth + i) % 12 = 6 then
          addToMonth holding.symbol holding.name (annualAmount / 2) p
        else p) 0 projections
    | .annual =>
      mapIdx (fun i p =>
        if (currentMonth + i) % 12 = 11 then
          addToMonth holding.symbol holding.name annualAmount p
        else p) 0 projections
    | .irregular =>
      mapIdx (fun i p =>
        if (currentMonth + i) % 12 % 3 = 0 then
          addToMonth holding.symbol holding.name (annualAmount / 4) p
        else p) 0 projections

/-- src/utils/calculations.ts `calculateDividendProjections` (second copy,
cited by the claims): 12 forward months starting at the current month, with
each holding's annual income distributed by cadence. `new Date()` is
abstracted into the `currentMonth`/`currentYear` parameters. -/
def calculateDividendProjections (currentMonth currentYear : Nat)
    (holdings : List Holding) (dividendHistory : List DividendPayment) :
    List MonthProjection :=
  let projections :=
    (List.range 12).map (initProj currentMonth currentYear)
  holdings.foldl (distributeHolding currentMonth dividendHistory) projections

/-- The reporting windows of src/utils/timeFilters.ts. -/
inductive TimePeriod where
  | MTD
  | QTD
  | YTD
  | PriorYear
  | Custom
deriving DecidableEq, Repr

/-- src/utils/timeFilters.ts `getDateRangeForTimePeriod` (`now` abstracted as
a parameter). For `Custom` the function returns no range in all cases, so the
`selectedMonths` argument is not consulted here. -/
def getDateRangeForTimePeriod (now : DateYMD) (timePeriod : TimePeriod) :
    Option DateYMD × Option DateYMD :=
  match timePeriod with
  | .MTD => (some ⟨now.year, now.month, 1⟩, some now)
  | .QTD =>
    (some ⟨now.year, ⟨now.month.val / 3 * 3, by have := now.month.isLt; omega⟩, 1⟩,
      some now)
  | .YTD => (some ⟨now.year, 0, 1⟩, some now)
  | .PriorYear => (some ⟨now.year - 1, 0, 1⟩, some ⟨now.year - 1, 11, 31⟩)
  | .Custom => (none, none)

/-- The shared date-range filtering tail of both time-period filters. -/
def dateRangeKeep (range : Option DateYMD × Option DateYMD) (d : DateYMD) :
    Prop :=
  match range with
  | (some s, some e) => dateLe s d ∧ dateLe d e
  | (some s, none) => dateLe s d
  | (none, some e) => dateLe d e
  | (none, none) => True

instance : ∀ r d, Decidable (dateRangeKeep r d)
  | (some s, some e), d => inferInstanceAs (Decidable (dateLe s d ∧ dateLe d e))
  | (some s, none), d => inferInstanceAs (Decidable (dateLe s d))
  | (none, some e), d => inferInstanceAs (Decidable (dateLe d e))
  | (none, none), _ => inferInstanceAs (Decidable True)

/-- src/utils/timeFilters.ts `filterTransactionsByTimePeriod`. -/
def filterTransactionsByTimePeriod (now : DateYMD)
    (transactions : List Transaction) (timePeriod : Option TimePeriod)
    (selectedMonths : Option (List Str)) : List Transaction :=
  if transactions = [] ∨ timePeriod = none then transactions
  else
    match timePeriod with
    | none => transactions
    | some tp =>
      if tp = .Custom ∧ selectedMonths.getD [] ≠ [] then
        transactions.filter (fun t =>
          monthName t.date.month ∈ selectedMonths.getD [])
      else
        let range := getDateRangeForTimePeriod now tp
        if range.1 = none ∧ range.2 = none then transactions
        else transactions.filter (fun t => dateRangeKeep range t.date)

/-- src/utils/timeFilters.ts `filterDividendsByTimePeriod`. -/
def filterDividendsByTimePeriod (now : DateYMD)
    (dividends : List DividendPayment) (timePeriod : Option TimePeriod)
    (selectedMonths : Option (List Str)) : List DividendPayment :=
  if dividends = [] ∨ timePeriod = none then dividends
  else
    match timePeriod with
    | none => dividends
    | some tp =>
      if tp = .Custom ∧ selectedMonths.getD [] ≠ [] then
        dividends.filter (fun d =>
          monthName d.date.month ∈ selectedMonths.getD [])
      else
        let range := getDateRangeForTimePeriod now tp
        if range.1 = none ∧ range.2 = none then dividends
        else dividends.filter (fun d => dateRangeKeep range d.date)

/-- A holding as constructed by the CSV positions parser
(src/utils/csvParser.ts). Numeric fields come from `parseFloat` and may be
`NaN`, hence `JSNum`. -/
structure CsvHolding where
  id : Str
  symbol : Str
  name : Str
  shares : JSNum
  costPerShare : JSNum
  costBasis : JSNum
  totalCost : JSNum
  currentValue : JSNum
  currentPrice : JSNum
  gain : JSNum
  gainPercent : JSNum
  dividendYield : JSNum
  dividendAmount : JSNum
  dividendFrequency : Freq
  dividendGrowth : JSNum
  sector : Str
  assetClass : Str
  allocation : JSNum
  irr : JSNum
  shareInPortfolio : JSNum
  annualIncome : JSNum
deriving DecidableEq, Repr

/-- The `resolve`d value of `parseCSV` (interface `CSVParseResult`; the
`success: true` flag is implied by `Except.ok`). -/
structure CSVParseResult where
  fileType : Str
  holdings : List CsvHolding
  transactions : List Transaction
  error : Option Str
deriving DecidableEq, Repr

/-- `containsKeywords` (src/utils/csvParser.ts): some header contains some
keyword as a substring, case-insensitively. -/
def containsKeywords (headers keywords : List Str) : Bool :=
  (headers.map toLowerStr).any fun header =>
    keywords.any fun keyword => strIncludes header keyword

/-- `detectHoldingsCSV` (src/utils/csvParser.ts). -/
def detectHoldingsCSV (headers : List Str) : Bool :=
  containsKeywords headers
    ["symbol".data, "ticker".data, "shares".data, "quantity".data,
      "price".data, "value".data, "cost".data]

/-- `detectTransactionsCSV` (src/utils/csvParser.ts). -/
def detectTransactionsCSV (headers : List Str) : Bool :=
  containsKeywords headers
    ["date".data, "transaction".data, "type".data, "action".data,
      "buy".data, "sell".data]

/-- `findHeaderIndex` (src/utils/csvParser.ts); JS's `-1` becomes `none`. -/
def findHeaderIndex (headers possibleNames : List Str) : Option Nat :=
  (headers.map toLowerStr).findIdx? fun header =>
    possibleNames.any fun nm => strIncludes header nm

/-- `parseCsvLine` (src/utils/csvParser.ts): split on commas outside double
quotes; quote characters are consumed by the toggle. -/
def parseCsvLineAux (inQuotes : Bool) (currentValue : Str) : Str → List Str
  | [] => [currentValue]
  | c :: rest =>
    if c = '"' then parseCsvLineAux (!inQuotes) currentValue rest
    else if c = ',' ∧ inQuotes = false then
      currentValue :: parseCsvLineAux inQuotes [] rest
    else parseCsvLineAux inQuotes (currentValue ++ [c]) rest

/-- `parseCsvLine` entry point. -/
def parseCsvLine (line : Str) : List Str :=
  parseCsvLineAux false [] line

/-- `mapAssetClass` (src/utils/csvParser.ts). -/
def mapAssetClass (assetClass : Str) : Str :=
  let lc := toLowerStr assetClass
  if strIncludes lc "stock".data || strIncludes lc "equity".data then
    "Stocks".data
  else if strIncludes lc "bond".data then "Bonds".data
  else if strIncludes lc "etf".data || strIncludes lc "fund".data then
    "ETFs".data
  else if strIncludes lc "reit".data || strIncludes lc "real estate".data then
    "Real Estate".data
  else if strIncludes lc "cash".data || strIncludes lc "money market".data then
    "Cash".data
  else if strIncludes lc "crypto".data then "Crypto".data
  else if strIncludes lc "commodity".data || strIncludes lc "gold".data then
    "Commodities".data
  else "Other".data

/-- The header-to-field index mapping block of `parseCSV`. -/
structure CsvCols where
  symbolIdx : Option Nat
  nameIdx : Option Nat
  sharesIdx : Option Nat
  costBasisIdx : Option Nat
  costPerShareIdx : Option Nat
  currentPriceIdx : Option Nat
  currentValueIdx : Option Nat
  gainIdx : Option Nat
  gainPercentIdx : Option Nat
  dividendYieldIdx : Option Nat
  dividendAmountIdx : Option Nat
  sectorIdx : Option Nat
  assetClassIdx : Option Nat
deriving DecidableEq, Repr

/-- The `findHeaderIndex` calls of the holdings branch of `parseCSV`. -/
def findCsvCols (headers : List Str) : CsvCols :=
  { symbolIdx := findHeaderIndex headers
      ["symbol".data, "ticker".data, "stock".data]
    nameIdx := findHeaderIndex headers
      ["name".data, "description".data, "company".data, "security".data]
    sharesIdx := findHeaderIndex headers
      ["shares".data, "quantity".data, "position".data]
    costBasisIdx := findHeaderIndex headers
      ["cost basis".data, "basis".data, "total cost".data]
    costPerShareIdx := findHeaderIndex headers
      ["cost per share".data, "price paid".data, "avg price".data,
        "average price".data]
    currentPriceIdx := findHeaderIndex headers
      ["price".data, "current price".data, "last price".data]
    currentValueIdx := findHeaderIndex headers
      ["value".data, "current value".data, "market value".data]
    gainIdx := findHeaderIndex headers
      ["gain".data, "profit".data, "gain/loss".data, "p/l".data]
    gainPercentIdx := findHeaderIndex headers
      ["gain %".data, "profit %".data, "return".data, "return %".data,
        "roi".data]
    dividendYieldIdx := findHeaderIndex headers
      ["yield".data, "dividend yield".data, "div yield".data, "yield %".data]
    dividendAmountIdx := findHeaderIndex headers
      ["dividend".data, "annual dividend".data, "div amount".data]
    sectorIdx := findHeaderIndex headers ["sector".data, "industry".data]
    assetClassIdx := findHeaderIndex headers
      ["asset class".data, "asset type".data, "security type".data,
        "type".data] }

/-- `cells[i]` (in the modelled call sites `i` is always in range because the
row's cell count was checked against the header count). -/
def getCell (cells : List Str) (i : Nat) : Str := cells.getD i []

/-- The holding object literal built for one accepted data row of a positions
CSV (`parseCSV`, src/utils/csvParser.ts, lines 99-163). `symbol` and `shares`
are the values already computed by the surrounding loop. -/
def buildCsvHolding (cols : CsvCols) (cells : List Str) (i : Nat)
    (symbol : Str) (shares : JSNum) : CsvHolding :=
  let name := match cols.nameIdx with
    | some ix => trimStr (getCell cells ix)
    | none => symbol
  let costBasis := match cols.costBasisIdx with
    | some ix => jsParseFloat (getCell cells ix)
    | none => some 0
  let costPerShare := match cols.costPerShareIdx with
    | some ix => jsParseFloat (getCell cells ix)
    | none => if jsGt shares (some 0) then jsDiv costBasis shares else some 0
  let currentPrice := match cols.currentPriceIdx with
    | some ix => jsParseFloat (getCell cells ix)
    | none => some 0
  let currentValue := match cols.currentValueIdx with
    | some ix => jsParseFloat (getCell cells ix)
    | none => jsMul currentPrice shares
  let gain := match cols.gainIdx with
    | some ix => jsParseFloat (getCell cells ix)
    | none => jsSub currentValue costBasis
  let gainPercent := match cols.gainPercentIdx with
    | some ix => jsParseFloat (getCell cells ix)
    | none =>
      if jsGt costBasis (some 0) then
        jsMul (jsDiv gain costBasis) (some 100)
      else some 0
  let dividendYield := match cols.dividendYieldIdx with
    | some ix => jsParseFloat (getCell cells ix)
    | none => some 0
  let dividendAmount := match cols.dividendAmountIdx with
    | some ix => jsParseFloat (getCell cells ix)
    | none =>
      if jsGt dividendYield (some 0) && jsGt currentValue (some 0) then
        jsDiv (jsMul dividendYield currentValue) (some 100)
      else some 0
  let sector := match cols.sectorIdx with
    | some ix => trimStr (getCell cells ix)
    | none => []
  let assetClass := match cols.assetClassIdx with
    | some ix => mapAssetClass (trimStr (getCell cells ix))
    | none => "Stocks".data
  let annualIncome :=
    if jsGt dividendYield (some 0) && jsGt currentValue (some 0) then
      jsDiv (jsMul dividendYield currentValue) (some 100)
    else dividendAmount
  { id := "holding-".data ++ symbol ++ "-".data ++ natToStr i
    symbol := symbol
    name := name
    shares := shares
    costPerShare := costPerShare
    costBasis := costBasis
    totalCost := jsOrElse costBasis (jsMul costPerShare shares)
    currentValue := currentValue
    currentPrice := currentPrice
    gain := gain
    gainPercent := gainPercent
    dividendYield := dividendYield
    dividendAmount := dividendAmount
    dividendFrequency := .quarterly
    dividendGrowth := some 0
    sector := sector
    assetClass := assetClass
    allocation := some 0
    irr := some 0
    shareInPortfolio := some 0
    annualIncome := annualIncome }

/-- The row loop of the holdings branch of `parseCSV`: skip rows whose cell
count mismatches the header count, rows without a symbol, and rows whose
share count is `<= 0` (false for `NaN`, as in JS). -/
def parseHoldingRows (cols : CsvCols) (headersLen : Nat) :
    List Str → Nat → List CsvHolding
  | [], _ => []
  | line :: rest, i =>
    let cells := parseCsvLine line
    if cells.length ≠ headersLen then parseHoldingRows cols headersLen rest (i + 1)
    else
      let symbol := match cols.symbolIdx with
        | some ix => trimStr (getCell cells ix)
        | none => []
      if symbol = [] then parseHoldingRows cols headersLen rest (i + 1)
      else
        let shares := match cols.sharesIdx with
          | some ix => jsParseFloat (getCell cells ix)
          | none => some 0
        if jsLe shares (some 0) then parseHoldingRows cols headersLen rest (i + 1)
        else
          buildCsvHolding cols cells i symbol shares ::
            parseHoldingRows cols headersLen rest (i + 1)

/-- The allocation assignment of the holdings branch of `parseCSV`
(guarded by `totalValue > 0`). -/
def assignCsvAllocations (holdings : List CsvHolding) : List CsvHolding :=
  let totalValue := holdings.foldl (fun sum h => jsAdd sum h.currentValue) (some 0)
  if jsGt totalValue (some 0) then
    holdings.map fun h =>
      { h with allocation := jsMul (jsDiv h.currentValue totalValue) (some 100)
               shareInPortfolio :=
                 jsMul (jsDiv h.currentValue totalValue) (some 100) }
  else holdings

/-- `holdings.sort((a, b) => b.currentValue - a.currentValue)`: stable sort
whose non-strict order keeps `a` before `b` when the comparator is `<= 0`. -/
def csvValueDescLe (a b : CsvHolding) : Prop :=
  jsLe (jsSub b.currentValue a.currentValue) (some 0) = true

instance : DecidableRel csvValueDescLe := fun a b => by
  unfold csvValueDescLe; infer_instance

/-- The placeholder holding fabricated by `parseCSV` when a recognized
holdings file yields no valid rows (src/utils/csvParser.ts, lines 188-213). -/
def placeholderCsvHolding : CsvHolding :=
  { id := "placeholder".data
    symbol := "PLACEHOLDER".data
    name := "CSV could not be properly parsed".data
    shares := some 1
    costPerShare := some 100
    costBasis := some 100
    totalCost := some 100
    currentValue := some 100
    currentPrice := some 100
    gain := some 0
    gainPercent := some 0
    dividendYield := some 0
    dividendAmount := some 0
    dividendFrequency := .quarterly
    dividendGrowth := some 0
    sector := "Other".data
    assetClass := "Other".data
    allocation := some 100
    irr := some 0
    shareInPortfolio := some 100
    annualIncome := some 0 }

/-- The header row of a CSV text, as computed by `parseCSV`:
`lines[0].split(',').map(h => h.trim())`. -/
def csvHeaders (csvText : Str) : List Str :=
  ((splitOnChar ',' ((splitLines csvText).headD [])).map trimStr)

/-- src/utils/csvParser.ts `parseCSV` (the string-based parser, lines
15-237). `reject` is `Except.error`, `resolve` is `Except.ok`. -/
def parseCSV (csvText : Str) : Except Str CSVParseResult :=
  if csvText = [] then .error "No CSV data provided".data
  else
    let lines := splitLines csvText
    let headers := csvHeaders csvText
    let isHoldings := detectHoldingsCSV headers
    let isTransactions := detectTransactionsCSV headers
    if isHoldings = false ∧ isTransactions = false then
      .error "Could not determine CSV type. Expected headers for holdings or transactions not found.".data
    else
      let dataLines := (lines.drop 1).filter (fun l => trimStr l ≠ [])
      if dataLines = [] then .error "No data rows found in CSV".data
      else if isHoldings then
        let cols := findCsvCols headers
        match cols.symbolIdx with
        | none => .error "Required column Symbol not found".data
        | some _ =>
          let holdings := parseHoldingRows cols headers.length dataLines 0
          if holdings ≠ [] then
            .ok { fileType := "holdings".data
                  holdings :=
                    (assignCsvAllocations holdings).insertionSort csvValueDescLe
                  transactions := []
                  error := none }
          else
            .ok { fileType := "holdings".data
                  holdings := [placeholderCsvHolding]
                  transactions := []
                  error :=
                    some "No valid holdings found in CSV. Created a placeholder.".data }
      else
        .ok { fileType := "transactions".data
              holdings := []
              transactions := []
              error := none }

/-- `hasTransactionHeaders` (unnamed module `part_016`, the transaction-history
header signature of the spec): requires both `date` and `symbol`, and at least
4 distinct transaction keywords present. Headers are already lowercased by the
caller. -/
def hasTransactionHeaders (headers : List Str) : Bool :=
  let transactionKeywords :=
    ["date".data, "transaction".data, "action".data, "type".data, "buy".data,
      "sell".data, "symbol".data, "price".data, "amount".data, "quantity".data]
  let requiredKeywords := ["date".data, "symbol".data]
  let hasRequired := requiredKeywords.all fun keyword =>
    headers.any fun h => strIncludes h keyword
  let keywordCount := (transactionKeywords.filter fun keyword =>
    headers.any fun h => strIncludes h keyword).length
  hasRequired && keywordCount ≥ 4

/-- `hasHoldingHeaders` (unnamed module `part_016`, the positions header
signature of the spec): requires one of `symbol`/`share` and at least 3
distinct holdings keywords present. -/
def hasHoldingHeaders (headers : List Str) : Bool :=
  let holdingsKeywords :=
    ["symbol".data, "ticker".data, "share".data, "position".data,
      "value".data, "price".data, "cost".data]
  let requiredKeywords := ["symbol".data, "share".data]
  let hasRequired := requiredKeywords.any fun keyword =>
    headers.any fun h => strIncludes h keyword
  let keywordCount := (holdingsKeywords.filter fun keyword =>
    headers.any fun h => strIncludes h keyword).length
  hasRequired && keywordCount ≥ 3

/-- The seen-key set accumulated by `filterSeenAux` after a whole list. -/
def seenAfter {α κ : Type} [DecidableEq κ] (key : α → κ) (seen : List κ) :
    List α → List κ
  | [] => seen
  | x :: xs =>
    if key x ∈ seen then seenAfter key seen xs
    else seenAfter key (key x :: seen) xs

/-- First transaction of the C1 scenario: BUY 10 AAPL @100 on 2024-01-01. -/
def aaplBuy1 : Transaction :=
  { id := "t1".data, date := ⟨2024, 0, 1⟩, type := "BUY".data
    symbol := "AAPL".data, companyName := "Apple".data
    shares := 10, price := 100, amount := 1000 }

/-- Second transaction of the C1 scenario: BUY 10 AAPL @120 on 2024-02-01. -/
def aaplBuy2 : Transaction :=
  { id := "t2".data, date := ⟨2024, 1, 1⟩, type := "BUY".data
    symbol := "AAPL".data, companyName := "Apple".data
    shares := 10, price := 120, amount := 1200 }

/-- Third transaction of the C1 scenario: SELL 5 AAPL @150 on 2024-03-01. -/
def aaplSell : Transaction :=
  { id := "t3".data, date := ⟨2024, 2, 1⟩, type := "SELL".data
    symbol := "AAPL".data, companyName := "Apple".data
    shares := 5, price := 150, amount := 750 }

/-- A sample dividend payment used in merge examples. -/
def sampleDividend : DividendPayment :=
  { id := "d1".data, symbol := "AAPL".data, date := ⟨2024, 0, 15⟩
    amount := 25, shares := 10 }

/-- The empty stored portfolio state. -/
def emptyPortfolio : PortfolioData :=
  { holdings := [], dividends := [], transactions := [] }

/-- A parsed positions file carrying one dividend. -/
def positionsImportWithDividend : ParsedData :=
  { holdings := [], dividends := [sampleDividend], transactions := []
    fileType := .positions }

/-- A CSV whose header satisfies neither the positions signature (only 1 of
the 7 keywords) nor the transaction-history signature (no `date`). -/
def unrecognizableCsv : Str := "symbol,foo,bar\nABC,1,2".data

/-- A holding with the given cadence, one share, and annual income 100, used
to exercise the projection engine. -/
def projHolding (f : Freq) : Holding :=
  { id := "h".data, symbol := "X".data, name := "X".data
    shares := 1, costBasis := 100, totalCost := 100, currentPrice := 100
    currentValue := 100, gain := 0, gainPercent := 0, dividendYield := 1
    annualIncome := 100, lastUpdated := ⟨2025, 0, 1⟩
    assetClass := "Stocks".data, allocation := 100, shareInPortfolio := 100
    costPerShare := 100, dividendAmount := 1, dividendFrequency := f
    dividendGrowth := 0, sector := "Other".data, irr := 0 }

/-- Two dividend payments three months apart, for cadence detection. -/
def quarterlyPayments : List DividendPayment :=
  [ { id := "q1".data, symbol := "X".data, date := ⟨2024, 0, 10⟩
      amount := 25, shares := 0 },
    { id := "q2".data, symbol := "X".data, date := ⟨2024, 3, 10⟩
      amount := 25, shares := 0 } ]

/-- Does the replay loop, run over `m`, apply every SELL of this list at a
nonzero held-share count? Where a SELL meets zero held shares, JS divides by
zero (`Infinity`/`NaN`) while the `ℚ` model yields 0, so theorems about the
replay are stated on the region where this holds. -/
def sellDivSafeAux (m : List (Str × Holding)) : List Transaction → Bool
  | [] => true
  | t :: ts =>
    (if toUpperStr t.type = "SELL".data ∧ t.symbol ≠ [] then
      decide (((alistGet m t.symbol).getD
        (initHolding t.symbol t.companyName t.date)).shares ≠ 0)
    else true) && sellDivSafeAux (processTx m t) ts

/-- No SELL of the date-sorted transaction list executes against zero held
shares (the region where JS and exact-rational arithmetic agree). -/
def sellDivSafe (transactions : List Transaction) : Bool :=
  sellDivSafeAux []
    (transactions.insertionSort (fun a b => dateLe a.date b.date))

deriving instance DecidableEq for Except

theorem mem_seenAfter {α κ : Type} [DecidableEq κ] (key : α → κ) (a : κ) :
    ∀ (l : List α) (seen : List κ),
      a ∈ seenAfter key seen l ↔ a ∈ seen ∨ a ∈ l.map key := by
  intro l
  induction l with
  | nil => intro seen; simp [seenAfter]
  | cons x xs ih =>
    intro seen
    by_cases hx : key x ∈ seen
    · rw [seenAfter, if_pos hx, ih]
      simp only [List.map_cons, List.mem_cons]
      constructor
      · rintro (h | h)
        · exact Or.inl h
        · exact Or.inr (Or.inr h)
      · rintro (h | h | h)
        · exact Or.inl h
        · exact Or.inl (h ▸ hx)
        · exact Or.inr h
    · rw [seenAfter, if_neg hx, ih]
      simp only [List.map_cons, List.mem_cons]
      tauto

theorem filterSeenAux_append {α κ : Type} [DecidableEq κ] (key : α → κ)
    (l m : List α) :
    ∀ seen, filterSeenAux key seen (l ++ m) =
      filterSeenAux key seen l ++ filterSeenAux key (seenAfter key seen l) m := by
  induction l with
  | nil => intro seen; simp [filterSeenAux, seenAfter]
  | cons x xs ih =>
    intro seen
    by_cases hx : key x ∈ seen
    · show filterSeenAux key seen (x :: (xs ++ m)) = _
      rw [filterSeenAux, if_pos hx, ih seen]
      conv_rhs => rw [filterSeenAux, if_pos hx, seenAfter, if_pos hx]
    · show filterSeenAux key seen (x :: (xs ++ m)) = _
      rw [filterSeenAux, if_neg hx, ih (key x :: seen)]
      conv_rhs => rw [filterSeenAux, if_neg hx, seenAfter, if_neg hx]
      rw [List.cons_append]

theorem filterSeenAux_idem {α κ : Type} [DecidableEq κ] (key : α → κ)
    (l : List α) :
    ∀ seen, filterSeenAux key seen (filterSeenAux key seen l) =
      filterSeenAux key seen l := by
  induction l with
  | nil => intro seen; simp [filterSeenAux]
  | cons x xs ih =>
    intro seen
    by_cases hx : key x ∈ seen
    · rw [filterSeenAux, if_pos hx, ih]
    · rw [filterSeenAux, if_neg hx, filterSeenAux, if_neg hx, ih]

theorem filterSeenAux_eq_nil {α κ : Type} [DecidableEq κ] (key : α → κ)
    (m : List α) :
    ∀ seen, (∀ x ∈ m, key x ∈ seen) → filterSeenAux key seen m = [] := by
  induction m with
  | nil => intro seen _; rfl
  | cons x xs ih =>
    intro seen h
    rw [filterSeenAux, if_pos (h x (List.mem_cons_self x xs))]
    exact ih seen fun y hy => h y (List.mem_cons_of_mem x hy)

theorem mem_map_key_filterSeenAux {α κ : Type} [DecidableEq κ] (key : α → κ)
    (a : κ) (l : List α) :
    ∀ seen, a ∈ (filterSeenAux key seen l).map key ↔
      a ∉ seen ∧ a ∈ l.map key := by
  induction l with
  | nil => intro seen; simp [filterSeenAux]
  | cons x xs ih =>
    intro seen
    by_cases hx : key x ∈ seen
    · rw [filterSeenAux, if_pos hx, ih]
      simp only [List.map_cons, List.mem_cons]
      constructor
      · rintro ⟨h1, h2⟩; exact ⟨h1, Or.inr h2⟩
      · rintro ⟨h1, h2 | h2⟩
        · exact absurd (h2 ▸ hx) h1
        · exact ⟨h1, h2⟩
    · rw [filterSeenAux, if_neg hx]
      simp only [List.map_cons, List.mem_cons, ih (key x :: seen)]
      constructor
      · rintro (h | ⟨h1, h2⟩)
        · subst h; exact ⟨hx, Or.inl rfl⟩
        · exact ⟨fun hs => h1 (Or.inr hs), Or.inr h2⟩
      · rintro ⟨h1, h | h2⟩
        · exact Or.inl h
        · by_cases ha : a = key x
          · exact Or.inl ha
          · exact Or.inr ⟨fun hs => hs.elim ha h1, h2⟩

theorem mem_of_mem_filterSeenAux {α κ : Type} [DecidableEq κ] (key : α → κ)
    (x : α) (l : List α) :
    ∀ seen, x ∈ filterSeenAux key seen l → x ∈ l ∧ key x ∉ seen := by
  induction l with
  | nil => intro seen h; simp [filterSeenAux] at h
  | cons y ys ih =>
    intro seen h
    by_cases hy : key y ∈ seen
    · rw [filterSeenAux, if_pos hy] at h
      obtain ⟨h1, h2⟩ := ih seen h
      exact ⟨List.mem_cons_of_mem y h1, h2⟩
    · rw [filterSeenAux, if_neg hy] at h
      rcases List.mem_cons.mp h with h | h
      · exact ⟨h ▸ List.mem_cons_self y ys, h ▸ hy⟩
      · obtain ⟨h1, h2⟩ := ih (key y :: seen) h
        exact ⟨List.mem_cons_of_mem y h1,
          fun hs => h2 (List.mem_cons_of_mem _ hs)⟩

theorem filterSeenAux_of_nodup_keys {α κ : Type} [DecidableEq κ]
    (key : α → κ) (l : List α) :
    ∀ seen, (l.map key).Nodup → (∀ a ∈ l.map key, a ∉ seen) →
      filterSeenAux key seen l = l := by
  induction l with
  | nil => intro seen _ _; rfl
  | cons x xs ih =>
    intro seen hnd hdisj
    have hx : key x ∉ seen :=
      hdisj (key x) (by simp)
    rw [filterSeenAux, if_neg hx]
    have hnd' : (xs.map key).Nodup := (List.nodup_cons.mp (by simpa using hnd)).2
    have hhead : key x ∉ xs.map key :=
      (List.nodup_cons.mp (by simpa using hnd)).1
    have hdisj' : ∀ a ∈ xs.map key, a ∉ key x :: seen := by
      intro a ha hmem
      rcases List.mem_cons.mp hmem with h | h
      · exact hhead (h ▸ ha)
      · exact hdisj a (List.mem_cons_of_mem _ ha) h
    rw [ih (key x :: seen) hnd' hdisj']

theorem filterSeen_existing_wins {α κ : Type} [DecidableEq κ] (key : α → κ)
    (E M : List α) (hnd : (E.map key).Nodup) (e : α) (he : e ∈ E) (i : α)
    (hk : key i = key e) (hiE : i ∉ E) :
    e ∈ filterSeen key (E ++ M) ∧ i ∉ filterSeen key (E ++ M) := by
  unfold filterSeen
  rw [filterSeenAux_append]
  have hE : filterSeenAux key [] E = E :=
    filterSeenAux_of_nodup_keys key E [] hnd (by simp)
  rw [hE]
  constructor
  · exact List.mem_append_left _ he
  · intro hmem
    rcases List.mem_append.mp hmem with hmem | hmem
    · exact hiE hmem
    · obtain ⟨_, hkey⟩ := mem_of_mem_filterSeenAux key i M _ hmem
      apply hkey
      rw [mem_seenAfter]
      right
      rw [hk]
      exact List.mem_map_of_mem key he

theorem filterSeen_append_idem {α κ : Type} [DecidableEq κ] (key : α → κ)
    (E M : List α) :
    filterSeen key (filterSeen key (E ++ M) ++ M) = filterSeen key (E ++ M) := by
  unfold filterSeen
  rw [filterSeenAux_append, filterSeenAux_idem]
  have hnil : filterSeenAux key
      (seenAfter key [] (filterSeenAux key [] (E ++ M))) M = [] := by
    apply filterSeenAux_eq_nil
    intro x hx
    rw [mem_seenAfter]
    right
    rw [mem_map_key_filterSeenAux]
    exact ⟨by simp, List.mem_map_of_mem key (List.mem_append_right E hx)⟩
  rw [hnil, List.append_nil]

/-- Claim C2 (amended): merging the same parsed file twice is idempotent for
`fileType = transactions` (the dedup keys prevent growth of both the
transaction and the dividend sets). For `fileType = positions`, holdings
(replaced wholesale) and transactions (untouched) are idempotent, but the
incoming dividends are appended *without* dedup, so the second application
appends the file's dividends again. -/
theorem claim_C2_amended (S : PortfolioData) (N : ParsedData) :
    (N.fileType = .transactions →
      mergePortfolioData (mergePortfolioData S N) N = mergePortfolioData S N)
    ∧ (N.fileType = .positions →
      (mergePortfolioData (mergePortfolioData S N) N).holdings =
          (mergePortfolioData S N).holdings ∧
        (mergePortfolioData (mergePortfolioData S N) N).transactions =
          (mergePortfolioData S N).transactions ∧
        (mergePortfolioData (mergePortfolioData S N) N).dividends =
          (mergePortfolioData S N).dividends ++ N.dividends) := by
  obtain ⟨nh, nd, nt, nft⟩ := N
  cases nft with
  | positions =>
    constructor
    · intro h; simp at h
    · intro _
      exact ⟨rfl, rfl, rfl⟩
  | transactions =>
    constructor
    · intro _
      simp only [mergePortfolioData, removeDuplicateTransactions,
        removeDuplicateDividends]
      rw [filterSeen_append_idem txDedupKey, filterSeen_append_idem divDedupKey]
    · intro h; simp at h

/-- Witness for claim C2 (amended), at a one-transaction, one-dividend
transactions-file import over the empty store. -/
theorem claim_C2_amended_witness :
    mergePortfolioData
        (mergePortfolioData emptyPortfolio
          { holdings := [], dividends := [sampleDividend],
            transactions := [aaplBuy1], fileType := .transactions })
        { holdings := [], dividends := [sampleDividend],
          transactions := [aaplBuy1], fileType := .transactions } =
      mergePortfolioData emptyPortfolio
        { holdings := [], dividends := [sampleDividend],
          transactions := [aaplBuy1], fileType := .transactions } :=
  (claim_C2_amended emptyPortfolio
    { holdings := [], dividends := [sampleDividend],
      transactions := [aaplBuy1], fileType := .transactions }).1 rfl

/-- Counterexample to claim C2 as stated: re-importing the same positions
file (carrying one dividend) over the empty store grows the dividend list
from 1 to 2 entries. -/
theorem claim_C2_cex :
    (mergePortfolioData
        (mergePortfolioData emptyPortfolio positionsImportWithDividend)
        positionsImportWithDividend).dividends.length = 2 ∧
      (mergePortfolioData emptyPortfolio
        positionsImportWithDividend).dividends.length = 1 ∧
      (2 : Nat) ≠ 1 :=
  ⟨rfl, rfl, by decide⟩

/-- Claim C10: on a dedup-key collision during a transactions-file merge, the
previously stored record (transaction or dividend) is kept unchanged and the
incoming duplicate is discarded. The stored list is assumed to have pairwise
distinct dedup keys, which merging itself maintains. -/
theorem claim_C10 (S : PortfolioData) (N : ParsedData)
    (hft : N.fileType = .transactions) :
    (∀ e ∈ S.transactions, ∀ i ∈ N.transactions,
        (S.transactions.map txDedupKey).Nodup → txDedupKey i = txDedupKey e →
        i ∉ S.transactions →
        e ∈ (mergePortfolioData S N).transactions ∧
          i ∉ (mergePortfolioData S N).transactions) ∧
    (∀ e ∈ S.dividends, ∀ i ∈ N.dividends,
        (S.dividends.map divDedupKey).Nodup → divDedupKey i = divDedupKey e →
        i ∉ S.dividends →
        e ∈ (mergePortfolioData S N).dividends ∧
          i ∉ (mergePortfolioData S N).dividends) := by
  have hm : mergePortfolioData S N =
      { holdings := S.holdings
        dividends := removeDuplicateDividends (S.dividends ++ N.dividends)
        transactions :=
          removeDuplicateTransactions (S.transactions ++ N.transactions) } := by
    simp only [mergePortfolioData, hft]
  constructor
  · intro e he i _ hnd hk hiE
    rw [hm]
    exact filterSeen_existing_wins txDedupKey _ _ hnd e he i hk hiE
  · intro e he i _ hnd hk hiE
    rw [hm]
    exact filterSeen_existing_wins divDedupKey _ _ hnd e he i hk hiE

/-- Witness for claim C10: a stored BUY and an incoming copy of it that
differs only in `id` collide on the dedup key; the stored one survives the
merge and the incoming one is dropped. -/
theorem claim_C10_witness :
    aaplBuy1 ∈ (mergePortfolioData
        { holdings := [], dividends := [], transactions := [aaplBuy1] }
        { holdings := [], dividends := [],
          transactions := [{ aaplBuy1 with id := "t9".data }],
          fileType := .transactions }).transactions ∧
      { aaplBuy1 with id := "t9".data } ∉ (mergePortfolioData
        { holdings := [], dividends := [], transactions := [aaplBuy1] }
        { holdings := [], dividends := [],
          transactions := [{ aaplBuy1 with id := "t9".data }],
          fileType := .transactions }).transactions :=
  (claim_C10
    { holdings := [], dividends := [], transactions := [aaplBuy1] }
    { holdings := [], dividends := [],
      transactions := [{ aaplBuy1 with id := "t9".data }],
      fileType := .transactions } rfl).1
    aaplBuy1 (List.mem_singleton.mpr rfl)
    { aaplBuy1 with id := "t9".data } (List.mem_singleton.mpr rfl)
    (by simp) rfl
    (fun hmem => by
      simp only [List.mem_singleton] at hmem
      exact absurd (congrArg Transaction.id hmem) (by decide))

set_option maxRecDepth 4000 in
/-- Claim C9: the Custom time period applies no date range; a transaction or
dividend is kept exactly when the full month name of its date is a member of
the selected months — the year (and day) of the record play no role, so a
selected month name matches that month in every year present in the data. -/
theorem claim_C9 (now : DateYMD) (months : List Str) (hne : months ≠ []) :
    (∀ (transactions : List Transaction) (t : Transaction),
      t ∈ filterTransactionsByTimePeriod now transactions (some .Custom)
          (some months) ↔
        t ∈ transactions ∧ monthName t.date.month ∈ months) ∧
    (∀ (dividends : List DividendPayment) (d : DividendPayment),
      d ∈ filterDividendsByTimePeriod now dividends (some .Custom)
          (some months) ↔
        d ∈ dividends ∧ monthName d.date.month ∈ months) := by
  constructor
  · intro transactions t
    by_cases hl : transactions = []
    · subst hl
      simp [filterTransactionsByTimePeriod]
    · simp [filterTransactionsByTimePeriod, hl, hne, List.mem_filter]
  · intro dividends d
    by_cases hl : dividends = []
    · subst hl
      simp [filterDividendsByTimePeriod]
    · simp [filterDividendsByTimePeriod, hl, hne, List.mem_filter]

/-- Witness for claim C9: a January transaction passes the Custom filter for
`["January"]` even though `now` is in June 2025 and the transaction is from
2024 — the year is ignored. -/
theorem claim_C9_witness :
    aaplBuy1 ∈ filterTransactionsByTimePeriod ⟨2025, 5, 15⟩ [aaplBuy1]
      (some .Custom) (some ["January".data]) :=
  ((claim_C9 ⟨2025, 5, 15⟩ ["January".data] (by decide)).1
      [aaplBuy1] aaplBuy1).mpr
    ⟨List.mem_singleton.mpr rfl, by decide⟩

theorem dateLe_iff (a b : DateYMD) :
    dateLe a b ↔ (a.year < b.year ∨ (a.year = b.year ∧
      (a.month.val < b.month.val ∨
        (a.month.val = b.month.val ∧ a.day ≤ b.day)))) := by
  unfold dateLe
  constructor
  · rintro (h | ⟨h1, h2 | ⟨h2, h3⟩⟩)
    · exact Or.inl h
    · exact Or.inr ⟨h1, Or.inl h2⟩
    · exact Or.inr ⟨h1, Or.inr ⟨congrArg Fin.val h2, h3⟩⟩
  · rintro (h | ⟨h1, h2 | ⟨h2, h3⟩⟩)
    · exact Or.inl h
    · exact Or.inr ⟨h1, Or.inl h2⟩
    · exact Or.inr ⟨h1, Or.inr ⟨Fin.ext h2, h3⟩⟩

instance : IsTotal DateYMD dateLe :=
  ⟨fun a b => by rw [dateLe_iff, dateLe_iff]; omega⟩

instance : IsTrans DateYMD dateLe :=
  ⟨fun a b c hab hbc => by
    rw [dateLe_iff] at hab hbc ⊢; omega⟩

instance : IsAntisymm DateYMD dateLe :=
  ⟨fun a b hab hba => by
    rw [dateLe_iff] at hab hba
    obtain ⟨ya, ma, da⟩ := a
    obtain ⟨yb, mb, db⟩ := b
    simp only at hab hba
    have h1 : ya = yb := by omega
    have h2 : (ma : Nat) = (mb : Nat) := by omega
    have h3 : da = db := by omega
    subst h1
    subst h3
    congr 1
    exact Fin.ext h2⟩

theorem map_date_insertionSort (l : List DividendPayment) :
    (l.insertionSort (fun a b => dateLe a.date b.date)).map
        (fun d => d.date) =
      (l.map (fun d => d.date)).insertionSort dateLe := by
  haveI hTot : IsTotal DividendPayment (fun a b => dateLe a.date b.date) :=
    ⟨fun a b => IsTotal.total (r := dateLe) a.date b.date⟩
  haveI hTrans : IsTrans DividendPayment (fun a b => dateLe a.date b.date) :=
    ⟨fun a b c hab hbc => IsTrans.trans (r := dateLe) _ _ _ hab hbc⟩
  apply List.eq_of_perm_of_sorted (r := dateLe)
  · exact ((List.perm_insertionSort _ l).map _).trans
      ((List.perm_insertionSort dateLe (l.map fun d => d.date)).symm)
  · exact List.pairwise_map.mpr
      (List.sorted_insertionSort
        (fun a b : DividendPayment => dateLe a.date b.date) l)
  · exact List.sorted_insertionSort dateLe (l.map fun d => d.date)

theorem pairGaps_ne_nil (l : List DateYMD) (h : 2 ≤ l.length) :
    pairGaps l ≠ [] := by
  match l with
  | a :: b :: rest => simp [pairGaps]
  | [] => simp at h
  | [a] => simp at h

/-- Claim C8: with fewer than 2 historical payments for the symbol, the
cadence defaults to quarterly; with at least 2, the payment dates are sorted,
the month-to-month gaps are averaged, and the average classifies the cadence
with thresholds 1.5 (monthly), 4 (quarterly), 8 (semi-annual), else annual. -/
theorem claim_C8 (dividends : List DividendPayment) (symbol : Str) :
    ((dividends.filter (fun d => d.symbol = symbol)).length < 2 →
      determineDividendFrequency dividends symbol = .quarterly) ∧
    (2 ≤ (dividends.filter (fun d => d.symbol = symbol)).length →
      determineDividendFrequency dividends symbol =
        (let dates := ((dividends.filter (fun d => d.symbol = symbol)).map
            (fun d => d.date)).insertionSort dateLe
         let gaps := pairGaps dates
         let avg : ℚ := ((gaps.sum : ℤ) : ℚ) / (gaps.length : ℚ)
         if avg ≤ 3/2 then .monthly
         else if avg ≤ 4 then .quarterly
         else if avg ≤ 8 then .semiAnnual
         else .annual)) := by
  constructor
  · intro h
    unfold determineDividendFrequency
    rw [if_pos (by omega)]
  · intro h
    unfold determineDividendFrequency
    rw [if_neg (by omega)]
    simp only [map_date_insertionSort]
    have hlen : 2 ≤ ((dividends.filter
        (fun d => d.symbol = symbol)).map (fun d => d.date)).length := by
      simpa using h
    have hlen' : 2 ≤ (((dividends.filter
        (fun d => d.symbol = symbol)).map
          (fun d => d.date)).insertionSort dateLe).length := by
      rwa [(List.perm_insertionSort dateLe _).length_eq]
    rw [if_neg (pairGaps_ne_nil _ hlen')]

/-- Witness for claim C8: no payments default to quarterly, and two payments
three months apart are classified quarterly (average gap 3 ≤ 4). -/
theorem claim_C8_witness :
    determineDividendFrequency [] "X".data = .quarterly ∧
      determineDividendFrequency quarterlyPayments "X".data = .quarterly := by
  constructor
  · exact (claim_C8 [] "X".data).1 (by decide)
  · refine ((claim_C8 quarterlyPayments "X".data).2 (by decide)).trans ?_
    have hv3 : ((3 : Fin 12) : ℕ) = 3 := by decide
    have hv0 : ((0 : Fin 12) : ℕ) = 0 := by decide
    norm_num [quarterlyPayments, List.insertionSort, List.orderedInsert,
      pairGaps, monthsDiff, dateLe_iff, hv3, hv0]


theorem mapIdx_length {α : Type} (f : Nat → α → α) :
    ∀ (s : Nat) (l : List α), (mapIdx f s l).length = l.length := by
  intro s l
  induction l generalizing s with
  | nil => rfl
  | cons p ps ih => simp [mapIdx, ih]

theorem mapIdx_const {α : Type} (F : α → α) :
    ∀ (s : Nat) (l : List α), mapIdx (fun _ p => F p) s l = l.map F := by
  intro s l
  induction l generalizing s with
  | nil => rfl
  | cons p ps ih => simp [mapIdx, ih]

theorem addToMonth_total (sym nm : Str) (amt : ℚ) (p : MonthProjection) :
    (addToMonth sym nm amt p).total = p.total + amt := rfl

theorem sum_map_total_add (sym nm : Str) (c : ℚ) (l : List MonthProjection) :
    ((l.map (addToMonth sym nm c)).map MonthProjection.total).sum =
      (l.map MonthProjection.total).sum + l.length * c := by
  induction l with
  | nil => simp
  | cons p ps ih =>
    simp only [List.map_cons, List.sum_cons, ih, addToMonth_total,
      List.length_cons]
    push_cast
    ring

theorem sum_total_mapIdx_cond (C : Nat → Prop) [DecidablePred C]
    (sym nm : Str) (amt : ℚ) :
    ∀ (s : Nat) (l : List MonthProjection),
      ((mapIdx (fun i p => if C i then addToMonth sym nm amt p else p) s
          l).map MonthProjection.total).sum =
        (l.map MonthProjection.total).sum +
          amt * ((List.range' s l.length).countP fun i => decide (C i)) := by
  intro s l
  induction l generalizing s with
  | nil => simp [mapIdx]
  | cons p ps ih =>
    rw [mapIdx]
    by_cases hc : C s
    · simp only [if_pos hc, List.map_cons, List.sum_cons, addToMonth_total,
        ih (s + 1), List.length_cons, List.range'_succ, List.countP_cons,
        decide_eq_true hc, eq_self_iff_true, if_true]
      push_cast
      ring
    · simp only [if_neg hc, List.map_cons, List.sum_cons, ih (s + 1),
        List.length_cons, List.range'_succ, List.countP_cons,
        decide_eq_false hc, Bool.false_eq_true, if_false]
      push_cast
      ring

theorem mapIdx_cond_map_total (C : Nat → Prop) [DecidablePred C]
    (sym nm : Str) (amt : ℚ) :
    ∀ (s : Nat) (l : List MonthProjection),
      (mapIdx (fun i p => if C i then addToMonth sym nm amt p else p) s
          l).map MonthProjection.total =
        List.zipWith (fun i t => if C i then t + amt else t)
          (List.range' s l.length) (l.map MonthProjection.total) := by
  intro s l
  induction l generalizing s with
  | nil => simp [mapIdx]
  | cons p ps ih =>
    rw [mapIdx]
    by_cases hc : C s
    · simp only [if_pos hc, List.map_cons, List.length_cons,
        List.range'_succ, List.zipWith_cons_cons, addToMonth_total,
        ih (s + 1)]
    · simp only [if_neg hc, List.map_cons, List.length_cons,
        List.range'_succ, List.zipWith_cons_cons, ih (s + 1)]

theorem zipWith_cond_replicate (C : Nat → Prop) [DecidablePred C] (amt : ℚ) :
    ∀ (n s : Nat),
      List.zipWith (fun i t => if C i then t + amt else t)
          (List.range' s n) (List.replicate n (0 : ℚ)) =
        (List.range' s n).map (fun i => if C i then amt else 0) := by
  intro n
  induction n with
  | zero => intro s; rfl
  | succ m ih =>
    intro s
    simp only [List.range'_succ, List.replicate_succ,
      List.zipWith_cons_cons, List.map_cons, ih (s + 1), zero_add]

theorem init_totals (cm cy : Nat) :
    ((List.range 12).map (initProj cm cy)).map MonthProjection.total =
      List.replicate 12 (0 : ℚ) := by
  rw [List.eq_replicate_iff]
  constructor
  · simp
  · intro b hb
    simp only [List.map_map, List.mem_map] at hb
    obtain ⟨i, _, rfl⟩ := hb
    rfl

theorem init_length (cm cy : Nat) :
    ((List.range 12).map (initProj cm cy)).length = 12 := by simp

theorem countQuarterFallback :
    ∀ cm < 12,
      ((List.range' 0 12).countP fun i => decide ((cm + i) % 12 % 3 = 0)) = 4 := by
  decide

theorem countPayMonth :
    ∀ cm < 12, ∀ pm < 12,
      ((List.range' 0 12).countP fun i => decide ((cm + i) % 12 = pm)) = 1 := by
  decide

theorem countSemi :
    ∀ cm < 12,
      ((List.range' 0 12).countP fun i =>
        decide ((cm + i) % 12 = 0 ∨ (cm + i) % 12 = 6)) = 2 := by
  decide

theorem countAnnual :
    ∀ cm < 12,
      ((List.range' 0 12).countP fun i => decide ((cm + i) % 12 = 11)) = 1 := by
  decide

theorem detectQuarterlyMonths_lt (sym : Str) (hist : List DividendPayment) :
    ∀ pm ∈ detectQuarterlyMonths sym hist, pm < 12 := by
  intro pm hpm
  have h12 : ∀ x ∈ ((filterSeen id ((hist.filter
      (fun d => d.symbol = sym)).map
        (fun d => (d.date.month : Nat)))).insertionSort jsDefaultNumLe),
      x < 12 := by
    intro x hx
    have hx' := (mem_of_mem_filterSeenAux id x _ []
      ((List.perm_insertionSort jsDefaultNumLe _).mem_iff.mp hx)).1
    obtain ⟨d, _, rfl⟩ := List.mem_map.mp hx'
    exact d.date.month.isLt
  simp only [detectQuarterlyMonths] at hpm
  split at hpm
  · simp at hpm
  · split at hpm
    next a b c d heq =>
      split at hpm
      · rw [← heq] at hpm
        exact h12 pm hpm
      · simp only [List.mem_cons, List.mem_singleton] at hpm
        rcases hpm with rfl | rfl | rfl | rfl | h
        · omega
        · omega
        · omega
        · omega
        · simp at h
    next heq =>
      simp only [List.mem_cons, List.mem_singleton] at hpm
      rcases hpm with rfl | rfl | rfl | rfl | h
      · omega
      · omega
      · omega
      · omega
      · simp at h

theorem detectQuarterlyMonths_few (sym : Str) (hist : List DividendPayment)
    (hfew : (hist.filter (fun d => d.symbol = sym)).length < 2) :
    detectQuarterlyMonths sym hist = [] := by
  simp only [detectQuarterlyMonths]
  rw [if_pos hfew]

theorem foldl_payMonths_sum (cm : Nat) (hcm : cm < 12) (sym nm : Str) (a : ℚ) :
    ∀ (qm : List Nat) (projs : List MonthProjection), (∀ pm ∈ qm, pm < 12) →
      projs.length = 12 →
      ((qm.foldl (fun ps payMonth =>
          mapIdx (fun i p => if (cm + i) % 12 = payMonth then
            addToMonth sym nm a p else p) 0 ps) projs).map
        MonthProjection.total).sum =
        (projs.map MonthProjection.total).sum + a * qm.length := by
  intro qm
  induction qm with
  | nil => intro projs _ _; simp
  | cons pm rest ih =>
    intro projs hlt hlen
    rw [List.foldl_cons,
      ih _ (fun x hx => hlt x (List.mem_cons_of_mem _ hx))
        (by rw [mapIdx_length]; exact hlen),
      sum_total_mapIdx_cond (fun i => (cm + i) % 12 = pm) sym nm a 0 projs,
      hlen, countPayMonth cm hcm pm (hlt pm (List.mem_cons_self _ _)),
      List.length_cons]
    push_cast
    ring

/-- Claim C5: for a single holding with positive shares and positive dividend
amount, under each of the monthly, quarterly, semi-annual and annual
cadences, the 12 projected month totals sum exactly (in `ℚ`, hence within
any rounding tolerance) to the holding's `annualIncome`. -/
theorem claim_C5 (cm cy : Nat) (hcm : cm < 12) (h : Holding)
    (hist : List DividendPayment) (hda : 0 < h.dividendAmount)
    (hsh : 0 < h.shares)
    (hfreq : h.dividendFrequency ∈
      [Freq.monthly, Freq.quarterly, Freq.semiAnnual, Freq.annual]) :
    ((calculateDividendProjections cm cy [h] hist).map
      MonthProjection.total).sum = h.annualIncome := by
  have hskip : ¬(h.dividendAmount ≤ 0 ∨ h.shares ≤ 0) := by
    push_neg
    exact ⟨hda, hsh⟩
  have hbase : (((List.range 12).map (initProj cm cy)).map
      MonthProjection.total).sum = 0 := by
    rw [init_totals]
    simp
  unfold calculateDividendProjections
  rw [List.foldl_cons, List.foldl_nil]
  unfold distributeHolding
  rw [if_neg hskip]
  simp only [List.mem_cons, List.not_mem_nil, or_false] at hfreq
  rcases hfreq with hf | hf | hf | hf
  · simp only [hf]
    rw [mapIdx_const (addToMonth h.symbol h.name (h.annualIncome / 12)) 0,
      sum_map_total_add, hbase, init_length]
    push_cast
    ring
  · simp only [hf]
    by_cases hq : (detectQuarterlyMonths h.symbol hist).length = 4
    · rw [if_pos hq,
        foldl_payMonths_sum cm hcm h.symbol h.name (h.annualIncome / 4) _ _
          (detectQuarterlyMonths_lt h.symbol hist) (init_length cm cy),
        hbase, hq]
      push_cast
      ring
    · rw [if_neg hq,
        sum_total_mapIdx_cond (fun i => (cm + i) % 12 % 3 = 0) h.symbol
          h.name (h.annualIncome / 4) 0 _,
        hbase, init_length, countQuarterFallback cm hcm]
      push_cast
      ring
  · simp only [hf]
    rw [sum_total_mapIdx_cond
        (fun i => (cm + i) % 12 = 0 ∨ (cm + i) % 12 = 6) h.symbol h.name
        (h.annualIncome / 2) 0 _,
      hbase, init_length, countSemi cm hcm]
    push_cast
    ring
  · simp only [hf]
    rw [sum_total_mapIdx_cond (fun i => (cm + i) % 12 = 11) h.symbol h.name
        h.annualIncome 0 _,
      hbase, init_length, countAnnual cm hcm]
    push_cast
    ring

/-- Witness for claim C5: a monthly holding with annual income 100 projects
totals summing to 100 (current month kept abstract as January 2025). -/
theorem claim_C5_witness :
    ((calculateDividendProjections 0 2025 [projHolding .monthly] []).map
      MonthProjection.total).sum = (projHolding .monthly).annualIncome :=
  claim_C5 0 2025 (by decide) (projHolding .monthly) []
    (by norm_num [projHolding]) (by norm_num [projHolding]) (by decide)

/-- Claim C4 (amended): the distribution amounts are as claimed, but the
quarterly fallback, semi-annual, and annual placements target fixed
*calendar* months — January/April/July/October, January/July, and December
respectively (i.e. the window offsets `i` with `(currentMonth+i) % 12` equal
to 0/3/6/9, 0/6, or 11) — not offsets 0,3,6,9 / 0,6 / 11 from the current
month; the two coincide only when the current month is suitably aligned
(e.g. January). Monthly is unchanged; irregular uses the same calendar-month
fallback as quarterly. -/
theorem claim_C4_amended (cm cy : Nat) (hcm : cm < 12) (h : Holding)
    (hist : List DividendPayment) (hda : 0 < h.dividendAmount)
    (hsh : 0 < h.shares) :
    (h.dividendFrequency = .monthly →
      (calculateDividendProjections cm cy [h] hist).map
          MonthProjection.total =
        (List.range 12).map (fun _ => h.annualIncome / 12)) ∧
    (h.dividendFrequency = .quarterly →
      (hist.filter (fun d => d.symbol = h.symbol)).length < 2 →
      (calculateDividendProjections cm cy [h] hist).map
          MonthProjection.total =
        (List.range 12).map (fun i =>
          if (cm + i) % 12 % 3 = 0 then h.annualIncome / 4 else 0)) ∧
    (h.dividendFrequency = .semiAnnual →
      (calculateDividendProjections cm cy [h] hist).map
          MonthProjection.total =
        (List.range 12).map (fun i =>
          if (cm + i) % 12 = 0 ∨ (cm + i) % 12 = 6 then
            h.annualIncome / 2 else 0)) ∧
    (h.dividendFrequency = .annual →
      (calculateDividendProjections cm cy [h] hist).map
          MonthProjection.total =
        (List.range 12).map (fun i =>
          if (cm + i) % 12 = 11 then h.annualIncome else 0)) ∧
    (h.dividendFrequency = .irregular →
      (calculateDividendProjections cm cy [h] hist).map
          MonthProjection.total =
        (List.range 12).map (fun i =>
          if (cm + i) % 12 % 3 = 0 then h.annualIncome / 4 else 0)) := by
  have hskip : ¬(h.dividendAmount ≤ 0 ∨ h.shares ≤ 0) := by
    push_neg
    exact ⟨hda, hsh⟩
  refine ⟨?_, ?_, ?_, ?_, ?_⟩
  · intro hf
    unfold calculateDividendProjections
    rw [List.foldl_cons, List.foldl_nil]
    unfold distributeHolding
    rw [if_neg hskip]
    simp only [hf]
    rw [mapIdx_const (addToMonth h.symbol h.name (h.annualIncome / 12)) 0,
      List.map_map, List.map_map]
    refine List.map_congr_left ?_
    intro i _
    simp [Function.comp, addToMonth_total, initProj]
  · intro hf hfew
    unfold calculateDividendProjections
    rw [List.foldl_cons, List.foldl_nil]
    unfold distributeHolding
    rw [if_neg hskip]
    simp only [hf, detectQuarterlyMonths_few h.symbol hist hfew]
    rw [if_neg (by simp),
      mapIdx_cond_map_total (fun i => (cm + i) % 12 % 3 = 0) h.symbol h.name
        (h.annualIncome / 4) 0 _,
      init_length, init_totals,
      zipWith_cond_replicate (fun i => (cm + i) % 12 % 3 = 0)
        (h.annualIncome / 4) 12 0,
      ← List.range_eq_range']
  · intro hf
    unfold calculateDividendProjections
    rw [List.foldl_cons, List.foldl_nil]
    unfold distributeHolding
    rw [if_neg hskip]
    simp only [hf]
    rw [mapIdx_cond_map_total
        (fun i => (cm + i) % 12 = 0 ∨ (cm + i) % 12 = 6) h.symbol h.name
        (h.annualIncome / 2) 0 _,
      init_length, init_totals,
      zipWith_cond_replicate (fun i => (cm + i) % 12 = 0 ∨ (cm + i) % 12 = 6)
        (h.annualIncome / 2) 12 0,
      ← List.range_eq_range']
  · intro hf
    unfold calculateDividendProjections
    rw [List.foldl_cons, List.foldl_nil]
    unfold distributeHolding
    rw [if_neg hskip]
    simp only [hf]
    rw [mapIdx_cond_map_total (fun i => (cm + i) % 12 = 11) h.symbol h.name
        h.annualIncome 0 _,
      init_length, init_totals,
      zipWith_cond_replicate (fun i => (cm + i) % 12 = 11) h.annualIncome
        12 0,
      ← List.range_eq_range']
  · intro hf
    unfold calculateDividendProjections
    rw [List.foldl_cons, List.foldl_nil]
    unfold distributeHolding
    rw [if_neg hskip]
    simp only [hf]
    rw [mapIdx_cond_map_total (fun i => (cm + i) % 12 % 3 = 0) h.symbol h.name
        (h.annualIncome / 4) 0 _,
      init_length, init_totals,
      zipWith_cond_replicate (fun i => (cm + i) % 12 % 3 = 0)
        (h.annualIncome / 4) 12 0,
      ← List.range_eq_range']

/-- Counterexample to claim C4 as stated: with the current month = February
(`currentMonth = 1`), a quarterly holding with annual income 100 and no
payment history receives 25 at window offsets 2, 5, 8, 11 (the calendar
months April/July/October/January), not at offsets 0, 3, 6, 9 as the claim
asserts. -/
theorem claim_C4_cex :
    ((calculateDividendProjections 1 2025 [projHolding .quarterly] []).map
        MonthProjection.total) =
      [0, 0, 25, 0, 0, 25, 0, 0, 25, 0, 0, 25] ∧
    ¬ ((calculateDividendProjections 1 2025 [projHolding .quarterly] []).map
        MonthProjection.total) =
      [25, 0, 0, 25, 0, 0, 25, 0, 0, 25, 0, 0] := by
  have hr : List.range 12 = [0, 1, 2, 3, 4, 5, 6, 7, 8, 9, 10, 11] := rfl
  constructor
  · norm_num [calculateDividendProjections, hr, initProj, distributeHolding,
      projHolding, detectQuarterlyMonths, mapIdx, addToMonth]
  · norm_num [calculateDividendProjections, hr, initProj, distributeHolding,
      projHolding, detectQuarterlyMonths, mapIdx, addToMonth]

/-- Witness for claim C4 (amended): the annual cadence places the entire
annual income in December — here, window offset 10 when the current month is
February. -/
theorem claim_C4_witness :
    (calculateDividendProjections 1 2025 [projHolding .annual] []).map
        MonthProjection.total =
      (List.range 12).map (fun i =>
        if (1 + i) % 12 = 11 then (projHolding Freq.annual).annualIncome
        else 0) :=
  ((claim_C4_amended 1 2025 (by decide) (projHolding .annual) []
      (by norm_num [projHolding]) (by norm_num [projHolding])).2.2.2.1) rfl

theorem applyTx_buy_fields (t : Transaction) (h : Holding)
    (hty : toUpperStr t.type = "BUY".data) :
    (applyTxToHolding t h).totalCost = h.totalCost + t.amount ∧
      (applyTxToHolding t h).shares = h.shares + t.shares := by
  simp only [applyTxToHolding, if_pos hty]
  by_cases hp : t.price > 0 <;> simp [hp]

theorem applyTx_sell_fields (t : Transaction) (h : Holding)
    (hty : toUpperStr t.type = "SELL".data) (hsh : h.shares ≠ 0) :
    (applyTxToHolding t h).totalCost =
        h.totalCost * (1 - t.shares / h.shares) ∧
      (applyTxToHolding t h).shares = h.shares - t.shares := by
  have hne : ¬ toUpperStr t.type = "BUY".data := by
    rw [hty]; decide
  simp only [applyTxToHolding, if_neg hne, if_pos hty]
  by_cases hp : t.price > 0 <;> simp [hp]

/-- Claim C1: the scenario [BUY 10 AAPL @100 (amount 1000), BUY 10 AAPL @120
(amount 1200), SELL 5 AAPL @150] replayed through the cost-basis
reconciliation yields exactly one AAPL holding with shares 15, totalCost
1650, costPerShare 110 and gain = currentValue − 1650; and in general (after
the date sort) a BUY adds the transaction's amount to `totalCost` and its
shares to `shares`, while a SELL multiplies `totalCost` by
`1 − soldShares/heldShares` and subtracts the sold shares (held shares
nonzero, as JS division by zero would produce NaN). -/
theorem claim_C1 :
    ((calculateHoldingsFromTransactions [aaplBuy1, aaplBuy2, aaplSell]).map
        (fun h => (h.symbol, h.shares, h.totalCost, h.costPerShare,
          h.currentValue - h.gain)) =
      [("AAPL".data, 15, 1650, 110, 1650)]) ∧
    (∀ (t : Transaction) (h : Holding), toUpperStr t.type = "BUY".data →
      (applyTxToHolding t h).totalCost = h.totalCost + t.amount ∧
        (applyTxToHolding t h).shares = h.shares + t.shares) ∧
    (∀ (t : Transaction) (h : Holding), toUpperStr t.type = "SELL".data →
      h.shares ≠ 0 →
      (applyTxToHolding t h).totalCost =
          h.totalCost * (1 - t.shares / h.shares) ∧
        (applyTxToHolding t h).shares = h.shares - t.shares) := by
  refine ⟨?_, fun t h hty => applyTx_buy_fields t h hty,
    fun t h hty hsh => applyTx_sell_fields t h hty hsh⟩
  have s12 : dateLe aaplBuy1.date aaplBuy2.date := by decide
  have s23 : dateLe aaplBuy2.date aaplSell.date := by decide
  have hsort : ([aaplBuy1, aaplBuy2, aaplSell].insertionSort
      (fun a b => dateLe a.date b.date)) = [aaplBuy1, aaplBuy2, aaplSell] := by
    simp [List.insertionSort, List.orderedInsert, s12, s23]
  have e1 : toUpperStr ['B', 'U', 'Y'] = ['B', 'U', 'Y'] := by decide
  have e3 : toUpperStr ['S', 'E', 'L', 'L'] = ['S', 'E', 'L', 'L'] := by
    decide
  have c1 : ('S' = 'B') = False := eq_false (by decide)
  have n1 : (['A', 'A', 'P', 'L'] = ([] : Str)) = False := eq_false (by decide)
  have n2 : (['A', 'p', 'p', 'l', 'e'] = ([] : Str)) = False :=
    eq_false (by decide)
  unfold calculateHoldingsFromTransactions
  rw [if_neg (by simp), hsort]
  norm_num [processTx, alistGet, alistPut, applyTxToHolding, initHolding,
    uuidv4, finalizeHolding, setAllocation, aaplBuy1, aaplBuy2, aaplSell,
    e1, e3, c1, n1, n2]

/-- Witness for claim C1's general BUY/SELL step facts, at concrete inputs. -/
theorem claim_C1_witness :
    ((applyTxToHolding aaplBuy1 (projHolding .quarterly)).totalCost =
        (projHolding .quarterly).totalCost + aaplBuy1.amount ∧
      (applyTxToHolding aaplBuy1 (projHolding .quarterly)).shares =
        (projHolding .quarterly).shares + aaplBuy1.shares) ∧
    ((applyTxToHolding aaplSell (projHolding .quarterly)).totalCost =
        (projHolding .quarterly).totalCost *
          (1 - aaplSell.shares / (projHolding .quarterly).shares) ∧
      (applyTxToHolding aaplSell (projHolding .quarterly)).shares =
        (projHolding .quarterly).shares - aaplSell.shares) :=
  ⟨claim_C1.2.1 aaplBuy1 (projHolding .quarterly) (by decide),
    claim_C1.2.2 aaplSell (projHolding .quarterly) (by decide)
      (by norm_num [projHolding])⟩

theorem alistPut_mem (m : List (Str × Holding)) (k : Str) (v : Holding)
    (kh : Str × Holding) (h : kh ∈ alistPut m k v) : kh ∈ m ∨ kh = (k, v) := by
  induction m with
  | nil =>
    rw [alistPut] at h
    simp only [List.mem_singleton] at h
    exact Or.inr h
  | cons p rest ih =>
    rw [alistPut] at h
    by_cases hk : p.1 = k
    · rw [if_pos hk] at h
      rcases List.mem_cons.mp h with h | h
      · exact Or.inr (by rw [h, hk])
      · exact Or.inl (List.mem_cons_of_mem _ h)
    · rw [if_neg hk] at h
      rcases List.mem_cons.mp h with h | h
      · exact Or.inl (h ▸ List.mem_cons_self _ _)
      · rcases ih h with h | h
        · exact Or.inl (List.mem_cons_of_mem _ h)
        · exact Or.inr h

theorem alistGet_mem (m : List (Str × Holding)) (k : Str) (v : Holding)
    (h : alistGet m k = some v) : (k, v) ∈ m := by
  induction m with
  | nil => simp [alistGet] at h
  | cons p rest ih =>
    rw [alistGet] at h
    by_cases hk : p.1 = k
    · rw [if_pos hk] at h
      injection h with h
      subst hk
      subst h
      simpa using List.mem_cons_self p rest
    · rw [if_neg hk] at h
      exact List.mem_cons_of_mem _ (ih h)

theorem applyTx_inv (t : Transaction) (h : Holding)
    (h1 : h.costBasis = h.costPerShare)
    (h2 : 0 < h.shares → h.shares * h.costPerShare = h.totalCost) :
    (applyTxToHolding t h).costBasis = (applyTxToHolding t h).costPerShare ∧
      (0 < (applyTxToHolding t h).shares →
        (applyTxToHolding t h).shares * (applyTxToHolding t h).costPerShare =
          (applyTxToHolding t h).totalCost) := by
  simp only [applyTxToHolding]
  split_ifs <;>
    refine ⟨by first | rfl | exact h1, fun hpos => ?_⟩ <;>
    (try dsimp only at hpos ⊢) <;>
    first
      | exact h2 hpos
      | (exact absurd hpos (by assumption))
      | (rw [mul_comm, div_mul_cancel₀ _ (ne_of_gt hpos)])
      | (have hp : (0 : ℚ) < t.price := by assumption
         have hpne : t.price ≠ 0 := ne_of_gt hp
         have hs : 0 < h.shares := by nlinarith
         have h2x := h2 hs
         rw [← h1] at h2x
         field_simp
         linear_combination t.price * h2x)

theorem foldl_processTx_inv :
    ∀ (l : List Transaction) (m : List (Str × Holding)),
      (∀ kh ∈ m, kh.2.costBasis = kh.2.costPerShare ∧
        (0 < kh.2.shares →
          kh.2.shares * kh.2.costPerShare = kh.2.totalCost)) →
      ∀ kh ∈ l.foldl processTx m,
        kh.2.costBasis = kh.2.costPerShare ∧
          (0 < kh.2.shares →
            kh.2.shares * kh.2.costPerShare = kh.2.totalCost) := by
  intro l
  induction l with
  | nil => intro m hm kh hkh; exact hm kh hkh
  | cons t ts ih =>
    intro m hm
    rw [List.foldl_cons]
    apply ih
    intro kh hkh
    unfold processTx at hkh
    by_cases hs : t.symbol = []
    · rw [if_pos hs] at hkh
      exact hm kh hkh
    · rw [if_neg hs] at hkh
      rcases alistPut_mem _ _ _ _ hkh with hmem | heq
      · exact hm kh hmem
      · have hP0 : ((alistGet m t.symbol).getD
            (initHolding t.symbol t.companyName t.date)).costBasis =
              ((alistGet m t.symbol).getD
                (initHolding t.symbol t.companyName t.date)).costPerShare ∧
            (0 < ((alistGet m t.symbol).getD
                (initHolding t.symbol t.companyName t.date)).shares →
              ((alistGet m t.symbol).getD
                  (initHolding t.symbol t.companyName t.date)).shares *
                ((alistGet m t.symbol).getD
                  (initHolding t.symbol t.companyName t.date)).costPerShare =
                ((alistGet m t.symbol).getD
                  (initHolding t.symbol t.companyName t.date)).totalCost) := by
          cases hg : alistGet m t.symbol with
          | none => simp [hg, initHolding]
          | some hv =>
            simp only [hg, Option.getD_some]
            exact hm (t.symbol, hv) (alistGet_mem m t.symbol hv hg)
        rw [heq]
        exact applyTx_inv t _ hP0.1 hP0.2

theorem calcHoldings_single_buy :
    calculateHoldingsFromTransactions [aaplBuy1] =
      [{ id := "uuid".data, symbol := "AAPL".data, name := "Apple".data
         shares := 10, costBasis := 100, totalCost := 1000
         currentPrice := 100, currentValue := 1000, gain := 0
         gainPercent := 0, dividendYield := 0, annualIncome := 0
         lastUpdated := ⟨2024, 0, 1⟩, assetClass := "Stocks".data
         allocation := 100, shareInPortfolio := 100, costPerShare := 100
         dividendAmount := 0, dividendFrequency := .quarterly
         dividendGrowth := 0, sector := "Other".data, irr := 0 }] := by
  have e1 : toUpperStr ['B', 'U', 'Y'] = ['B', 'U', 'Y'] := by decide
  have n1 : (['A', 'A', 'P', 'L'] = ([] : Str)) = False := eq_false (by decide)
  have n2 : (['A', 'p', 'p', 'l', 'e'] = ([] : Str)) = False :=
    eq_false (by decide)
  have hsort : ([aaplBuy1].insertionSort
      (fun a b => dateLe a.date b.date)) = [aaplBuy1] := by
    simp [List.insertionSort, List.orderedInsert]
  unfold calculateHoldingsFromTransactions
  rw [if_neg (by simp), hsort]
  norm_num [processTx, alistGet, alistPut, applyTxToHolding, initHolding,
    uuidv4, finalizeHolding, setAllocation, aaplBuy1, e1, n1, n2]

/-- Claim C6 (amended): a holding derived by replaying transactions satisfies
`costBasis = costPerShare` (the code stores the *average* cost there) and
`shares × costPerShare = totalCost` — not `costBasis = shares × costPerShare`.
This is stated for transaction sequences in which no SELL executes against
zero held shares (`sellDivSafe`), the region where JS arithmetic stays
finite and agrees with the rational model; outside it the code propagates
`NaN`. A holding parsed from a positions snapshot satisfies
`shares × costPerShare = costBasis` when the file has no explicit
per-share-cost column (so that `costPerShare` is derived as
`costBasis / shares`) and its share count is an actual positive number. -/
theorem claim_C6_amended :
    (∀ (transactions : List Transaction), sellDivSafe transactions = true →
      ∀ h ∈ calculateHoldingsFromTransactions transactions,
        h.costBasis = h.costPerShare ∧
          h.shares * h.costPerShare = h.totalCost ∧ 0 < h.shares) ∧
    (∀ (cols : CsvCols) (cells : List Str) (i : Nat) (symbol : Str)
        (shares : JSNum) (s : ℚ), cols.costPerShareIdx = none →
      shares = some s → 0 < s →
      jsMul (buildCsvHolding cols cells i symbol shares).shares
          (buildCsvHolding cols cells i symbol shares).costPerShare =
        (buildCsvHolding cols cells i symbol shares).costBasis) := by
  constructor
  · intro txs _hsafe h hmem
    unfold calculateHoldingsFromTransactions at hmem
    by_cases he : txs = []
    · rw [if_pos he] at hmem
      simp at hmem
    · rw [if_neg he] at hmem
      simp only [List.mem_map, List.mem_filter] at hmem
      obtain ⟨h₁, ⟨h₀, ⟨hmem₀, hsh⟩, rfl⟩, rfl⟩ := hmem
      rw [decide_eq_true_eq] at hsh
      obtain ⟨pair, hpair, rfl⟩ := hmem₀
      have hP := foldl_processTx_inv _ [] (by simp) pair hpair
      exact ⟨hP.1, hP.2 hsh, hsh⟩
  · intro cols cells i symbol shares s hcps hsh hpos
    subst hsh
    simp only [buildCsvHolding, hcps]
    have hgt : jsGt (some s) (some 0) = true := by
      simp only [jsGt, gt_iff_lt, decide_eq_true_eq]
      exact hpos
    rw [if_pos hgt]
    generalize (match cols.costBasisIdx with
      | some ix => jsParseFloat (getCell cells ix)
      | none => some 0 : JSNum) = cb
    cases cb with
    | none => rfl
    | some c =>
      have hdiv : jsDiv (some c) (some s) = some (c / s) := by
        simp [jsDiv, ne_of_gt hpos]
      rw [hdiv]
      show (some (s * (c / s)) : JSNum) = some c
      rw [mul_comm, div_mul_cancel₀ _ (ne_of_gt hpos)]

/-- Counterexample to claim C6 as stated: replaying a single BUY of 10
shares for 1000 yields a holding with `costBasis = 100` (the per-share
average) while `shares × costPerShare = 1000`. -/
theorem claim_C6_cex :
    ((calculateHoldingsFromTransactions [aaplBuy1]).map
      (fun h => (h.costBasis, h.shares * h.costPerShare))) = [(100, 1000)] ∧
      ¬ ((100 : ℚ) = 1000) := by
  rw [calcHoldings_single_buy]
  norm_num

/-- Witness for claim C6 (amended): the replay-derived holding of a single
BUY satisfies the amended equations, and a parsed CSV row holding with no
explicit per-share-cost column satisfies `shares × costPerShare = costBasis`. -/
theorem claim_C6_witness :
    (({ id := "uuid".data, symbol := "AAPL".data, name := "Apple".data
        shares := 10, costBasis := 100, totalCost := 1000
        currentPrice := 100, currentValue := 1000, gain := 0
        gainPercent := 0, dividendYield := 0, annualIncome := 0
        lastUpdated := ⟨2024, 0, 1⟩, assetClass := "Stocks".data
        allocation := 100, shareInPortfolio := 100, costPerShare := 100
        dividendAmount := 0, dividendFrequency := .quarterly
        dividendGrowth := 0, sector := "Other".data, irr := 0 } :
          Holding).costBasis =
        ({ id := "uuid".data, symbol := "AAPL".data, name := "Apple".data
           shares := 10, costBasis := 100, totalCost := 1000
           currentPrice := 100, currentValue := 1000, gain := 0
           gainPercent := 0, dividendYield := 0, annualIncome := 0
           lastUpdated := ⟨2024, 0, 1⟩, assetClass := "Stocks".data
           allocation := 100, shareInPortfolio := 100, costPerShare := 100
           dividendAmount := 0, dividendFrequency := .quarterly
           dividendGrowth := 0, sector := "Other".data, irr := 0 } :
             Holding).costPerShare ∧
      (10 : ℚ) * 100 = 1000 ∧ (0 : ℚ) < 10) ∧
    jsMul (buildCsvHolding
        { symbolIdx := some 0, nameIdx := none, sharesIdx := some 1,
          costBasisIdx := some 2, costPerShareIdx := none,
          currentPriceIdx := none, currentValueIdx := none, gainIdx := none,
          gainPercentIdx := none, dividendYieldIdx := none,
          dividendAmountIdx := none, sectorIdx := none, assetClassIdx := none }
        ["XY".data, "4".data, "200".data] 0 "XY".data (some 4)).shares
      (buildCsvHolding
        { symbolIdx := some 0, nameIdx := none, sharesIdx := some 1,
          costBasisIdx := some 2, costPerShareIdx := none,
          currentPriceIdx := none, currentValueIdx := none, gainIdx := none,
          gainPercentIdx := none, dividendYieldIdx := none,
          dividendAmountIdx := none, sectorIdx := none, assetClassIdx := none }
        ["XY".data, "4".data, "200".data] 0 "XY".data (some 4)).costPerShare =
      (buildCsvHolding
        { symbolIdx := some 0, nameIdx := none, sharesIdx := some 1,
          costBasisIdx := some 2, costPerShareIdx := none,
          currentPriceIdx := none, currentValueIdx := none, gainIdx := none,
          gainPercentIdx := none, dividendYieldIdx := none,
          dividendAmountIdx := none, sectorIdx := none, assetClassIdx := none }
        ["XY".data, "4".data, "200".data] 0 "XY".data (some 4)).costBasis := by
  constructor
  · have hm : ({ id := "uuid".data, symbol := "AAPL".data,
                 name := "Apple".data, shares := 10, costBasis := 100,
                 totalCost := 1000, currentPrice := 100, currentValue := 1000,
                 gain := 0, gainPercent := 0, dividendYield := 0,
                 annualIncome := 0, lastUpdated := ⟨2024, 0, 1⟩,
                 assetClass := "Stocks".data, allocation := 100,
                 shareInPortfolio := 100, costPerShare := 100,
                 dividendAmount := 0, dividendFrequency := .quarterly,
                 dividendGrowth := 0, sector := "Other".data,
                 irr := 0 } : Holding) ∈
        calculateHoldingsFromTransactions [aaplBuy1] := by
      rw [calcHoldings_single_buy]
      exact List.mem_singleton.mpr rfl
    have h := claim_C6_amended.1 [aaplBuy1] (by decide) _ hm
    exact ⟨h.1, by simpa using h.2.1, by simpa using h.2.2⟩
  · exact claim_C6_amended.2 _ _ 0 "XY".data (some 4) 4 rfl rfl (by norm_num)

theorem foldl_add_cv (l : List Holding) :
    ∀ a : ℚ, l.foldl (fun sum h => sum + h.currentValue) a =
      a + (l.map Holding.currentValue).sum := by
  induction l with
  | nil => intro a; simp
  | cons h hs ih =>
    intro a
    rw [List.foldl_cons, ih, List.map_cons, List.sum_cons]
    ring

theorem map_setAlloc_cv (tv : ℚ) (hs : List Holding) :
    (hs.map (setAllocation tv)).map Holding.currentValue =
      hs.map Holding.currentValue := by
  rw [List.map_map]
  exact List.map_congr_left fun h _ => rfl

theorem alloc_sum_pos (l : List Holding) (tv : ℚ) (htv : 0 < tv) :
    ((l.map (setAllocation tv)).map Holding.allocation).sum =
      (l.map Holding.currentValue).sum / tv * 100 := by
  induction l with
  | nil => simp
  | cons h hs ih =>
    simp only [List.map_cons, List.sum_cons, ih]
    have halloc : (setAllocation tv h).allocation =
        h.currentValue / tv * 100 := by
      simp only [setAllocation]
      rw [if_pos htv]
    rw [halloc]
    ring

theorem calc_alloc_general (hs : List Holding)
    (hpos : 0 < (hs.map Holding.currentValue).sum) :
    ((hs.map (setAllocation
        (hs.foldl (fun sum h => sum + h.currentValue) 0))).map
      Holding.allocation).sum = 100 := by
  have htv : hs.foldl (fun sum h => sum + h.currentValue) 0 =
      (hs.map Holding.currentValue).sum := by
    rw [foldl_add_cv]
    ring
  rw [htv, alloc_sum_pos _ _ hpos, div_self (ne_of_gt hpos), one_mul]

theorem foldl_jsAdd_none (f : CsvHolding → JSNum) :
    ∀ hs : List CsvHolding,
      hs.foldl (fun s h => jsAdd s (f h)) none = none := by
  intro hs
  induction hs with
  | nil => rfl
  | cons h0 rest ih =>
    rw [List.foldl_cons, show jsAdd none (f h0) = none from by
      cases f h0 <;> rfl]
    exact ih

theorem foldl_jsAdd_some_all (f : CsvHolding → JSNum) :
    ∀ (hs : List CsvHolding) (a T : ℚ),
      hs.foldl (fun s h => jsAdd s (f h)) (some a) = some T →
      ∀ h ∈ hs, ∃ q, f h = some q := by
  intro hs
  induction hs with
  | nil => intro a T _ h hmem; simp at hmem
  | cons h0 rest ih =>
    intro a T hfold h hmem
    rw [List.foldl_cons] at hfold
    cases hf0 : f h0 with
    | none =>
      rw [hf0, show jsAdd (some a) none = none from rfl,
        foldl_jsAdd_none] at hfold
      exact absurd hfold (by simp)
    | some q0 =>
      rw [hf0, show jsAdd (some a) (some q0) = some (a + q0) from rfl]
        at hfold
      rcases List.mem_cons.mp hmem with rfl | hmem
      · exact ⟨q0, hf0⟩
      · exact ih (a + q0) T hfold h hmem

theorem foldl_jsAdd_value (f : CsvHolding → JSNum) :
    ∀ (hs : List CsvHolding) (a : ℚ), (∀ h ∈ hs, ∃ q, f h = some q) →
      hs.foldl (fun s h => jsAdd s (f h)) (some a) =
        some (a + (hs.map (fun h => (f h).getD 0)).sum) := by
  intro hs
  induction hs with
  | nil => intro a _; simp
  | cons h0 rest ih =>
    intro a hall
    obtain ⟨q0, hq0⟩ := hall h0 (List.mem_cons_self _ _)
    rw [List.foldl_cons, hq0,
      show jsAdd (some a) (some q0) = some (a + q0) from rfl,
      ih (a + q0) (fun h hm => hall h (List.mem_cons_of_mem _ hm)),
      List.map_cons, List.sum_cons, hq0, Option.getD_some]
    congr 1
    ring

theorem sum_map_div_mul {α : Type} (f : α → ℚ) (t : ℚ) :
    ∀ l : List α,
      (l.map (fun x => f x / t * 100)).sum = (l.map f).sum / t * 100 := by
  intro l
  induction l with
  | nil => simp
  | cons x xs ih =>
    rw [List.map_cons, List.sum_cons, ih, List.map_cons, List.sum_cons]
    ring

/-- Claim C7: whenever the produced holdings are non-empty and their total
current value is positive, the computed allocation percentages sum to exactly
100 — both for holdings reconstructed from transactions and for holdings
parsed from a positions CSV (where sums are JS-number sums). -/
theorem claim_C7 :
    (∀ (transactions : List Transaction),
      calculateHoldingsFromTransactions transactions ≠ [] →
      0 < ((calculateHoldingsFromTransactions transactions).map
        Holding.currentValue).sum →
      ((calculateHoldingsFromTransactions transactions).map
        Holding.allocation).sum = 100) ∧
    (∀ (holdings : List CsvHolding) (T : ℚ), holdings ≠ [] →
      holdings.foldl (fun sum h => jsAdd sum h.currentValue) (some 0) =
        some T →
      0 < T →
      (assignCsvAllocations holdings).foldl
        (fun sum h => jsAdd sum h.allocation) (some 0) = some 100) := by
  constructor
  · intro txs hne hpos
    by_cases he : txs = []
    · subst he
      simp [calculateHoldingsFromTransactions] at hne
    · have hshape : calculateHoldingsFromTransactions txs =
          ((((txs.insertionSort
              (fun a b => dateLe a.date b.date)).foldl processTx []).map
                Prod.snd |>.filter (fun h => h.shares > 0)).map
            finalizeHolding).map
            (setAllocation
              (((((txs.insertionSort
                  (fun a b => dateLe a.date b.date)).foldl processTx []).map
                    Prod.snd |>.filter (fun h => h.shares > 0)).map
                finalizeHolding).foldl
                  (fun sum h => sum + h.currentValue) 0)) := by
        unfold calculateHoldingsFromTransactions
        rw [if_neg he]
      rw [hshape] at hpos ⊢
      rw [map_setAlloc_cv] at hpos
      exact calc_alloc_general _ hpos
  · intro holdings T hne hfold hT
    have hall := foldl_jsAdd_some_all CsvHolding.currentValue holdings 0 T
      hfold
    have hTne : T ≠ 0 := ne_of_gt hT
    simp only [assignCsvAllocations, hfold]
    have hgt : jsGt (some T) (some 0) = true := by
      simp only [jsGt, gt_iff_lt, decide_eq_true_eq]
      exact hT
    rw [if_pos hgt]
    rw [foldl_jsAdd_value (fun h => h.allocation) _ 0 ?hsome]
    case hsome =>
      intro h hmem
      obtain ⟨h₀, h₀mem, rfl⟩ := List.mem_map.mp hmem
      obtain ⟨q, hq⟩ := hall h₀ h₀mem
      exact ⟨q / T * 100, by simp [hq, jsDiv, jsMul, hTne]⟩
    have hvals : ((holdings.map (fun h =>
        { h with
            allocation :=
              jsMul (jsDiv h.currentValue (some T)) (some 100),
            shareInPortfolio :=
              jsMul (jsDiv h.currentValue (some T)) (some 100) })).map
          (fun h => (h.allocation).getD 0)) =
        holdings.map (fun h => (h.currentValue.getD 0) / T * 100) := by
      rw [List.map_map]
      refine List.map_congr_left ?_
      intro h hmem
      obtain ⟨q, hq⟩ := hall h hmem
      simp [Function.comp, hq, jsDiv, jsMul, hTne]
    rw [hvals, sum_map_div_mul (fun h => h.currentValue.getD 0) T holdings]
    have hTsum : T = (holdings.map (fun h => (h.currentValue).getD 0)).sum := by
      have hv := foldl_jsAdd_value CsvHolding.currentValue holdings 0 hall
      rw [hfold] at hv
      injection hv with hv
      linarith
    rw [← hTsum, div_self hTne]
    norm_num

/-- Witness for claim C7, at a single-BUY replay and a singleton CSV holdings
list. -/
theorem claim_C7_witness :
    ((calculateHoldingsFromTransactions [aaplBuy1]).map
      Holding.allocation).sum = 100 ∧
    (assignCsvAllocations [placeholderCsvHolding]).foldl
      (fun sum h => jsAdd sum h.allocation) (some 0) = some 100 := by
  constructor
  · exact claim_C7.1 [aaplBuy1]
      (by rw [calcHoldings_single_buy]; simp)
      (by rw [calcHoldings_single_buy]; norm_num)
  · exact claim_C7.2 [placeholderCsvHolding] 100 (by simp)
      (by norm_num [placeholderCsvHolding, jsAdd, List.foldl_cons,
        List.foldl_nil])
      (by norm_num)

theorem parseCSV_placeholder_eval :
    parseCSV unrecognizableCsv =
      .ok { fileType := "holdings".data
            holdings := [placeholderCsvHolding]
            transactions := []
            error := some
              "No valid holdings found in CSV. Created a placeholder.".data } := by
  decide

/-- Counterexample to claim C3 as stated: the header `symbol,foo,bar`
satisfies neither the positions signature (1 of 7 keywords < 3) nor the
transaction-history signature (no `date`), yet `parseCSV` succeeds — and its
result is a fabricated PLACEHOLDER holding, not a ParseError. -/
theorem claim_C3_cex :
    hasHoldingHeaders ((csvHeaders unrecognizableCsv).map toLowerStr) =
        false ∧
      hasTransactionHeaders ((csvHeaders unrecognizableCsv).map toLowerStr) =
        false ∧
      parseCSV unrecognizableCsv =
        .ok { fileType := "holdings".data
              holdings := [placeholderCsvHolding]
              transactions := []
              error := some
                "No valid holdings found in CSV. Created a placeholder.".data } :=
  ⟨by decide, by decide, parseCSV_placeholder_eval⟩

/-- Claim C3 (amended): `parseCSV` rejects with an error (and no partial
result) exactly when its own weaker detectors fail — when no header token
contains any holdings keyword and none contains any transaction keyword.
An input can fail both of the spec's signatures while still matching the
weak holdings detector; in that case, with no valid data rows, `parseCSV`
succeeds with the fabricated PLACEHOLDER holding. -/
theorem claim_C3_amended :
    (∀ s : Str, detectHoldingsCSV (csvHeaders s) = false →
      detectTransactionsCSV (csvHeaders s) = false →
      ∃ msg, parseCSV s = .error msg) ∧
    parseCSV unrecognizableCsv =
      .ok { fileType := "holdings".data
            holdings := [placeholderCsvHolding]
            transactions := []
            error := some
              "No valid holdings found in CSV. Created a placeholder.".data } := by
  constructor
  · intro s h1 h2
    by_cases hs : s = []
    · subst hs
      exact ⟨"No CSV data provided".data, rfl⟩
    · refine ⟨"Could not determine CSV type. Expected headers for holdings or transactions not found.".data, ?_⟩
      unfold parseCSV
      rw [if_neg hs]
      simp only [h1, h2, eq_self_iff_true, and_self, if_true]
  · exact parseCSV_placeholder_eval

/-- Witness for claim C3 (amended): the one-token input `xyz` matches no
keyword of either detector, and `parseCSV` rejects it. -/
theorem claim_C3_amended_witness :
    ∃ msg, parseCSV "xyz".data = .error msg :=
  claim_C3_amended.1 "xyz".data (by decide) (by decide)
